import Mathlib

/-!
Verification of the venue-light-controller core against its specification.

The Python source is embedded shallowly:

* a Python `bytes` / `list[int]` value becomes `List Nat`;
* a Python `dict` becomes an insertion-ordered association list
  (`List (key × value)`); Python dict equality (which ignores insertion
  order) is modelled by lookup equality where needed;
* Python `round` on the quotients occurring in this code base is modelled
  by round-half-to-even on natural-number fractions (`pyRound`); for the
  magnitudes used here (`a ≤ 25500`, `b = 100`) IEEE-754 division is exact
  at every half-integer tie, so this matches CPython bit for bit;
* functions that can raise return `Option`.
-/

namespace VenueLight

/-- A DMX byte buffer (Python `bytes` or `list[int]`). -/
abbrev Bytes := List Nat

/-- A Python `dict` from universe index to DMX buffer, insertion ordered. -/
abbrev UMap := List (Nat × Bytes)

/-- Python `bytes(dmx[:512]).ljust(512, b"\x00")`: truncate to 512 and
right-pad with zeros. -/
def pad512 (dmx : Bytes) : Bytes :=
  dmx.take 512 ++ List.replicate (512 - (dmx.take 512).length) 0

/-- Python `round(a / b)` for natural `a`, positive `b`: round half to even. -/
def pyRound (a b : Nat) : Nat :=
  let q := a / b
  let r := a % b
  if 2 * r < b then q
  else if b < 2 * r then q + 1
  else if q % 2 = 0 then q else q + 1

/-- The per-channel scaling step `max(0, min(255, round((value * percent) / 100)))`
shared by the master dimmer and the group dimmers in api.py. -/
def scaleChannel (value percent : Nat) : Nat :=
  max 0 (min 255 (pyRound (value * percent) 100))

/-- Replace the value stored under an existing key of a dict
(Python in-place `d[k] = v` when `k` is already present). -/
def replaceU (m : UMap) (u : Nat) (v : Bytes) : UMap :=
  m.map fun q => if q.1 = u then (u, v) else q

/-- Python `d[k] = v`: overwrite in place when present, append otherwise. -/
def storeU (m : UMap) (u : Nat) (v : Bytes) : UMap :=
  if (List.lookup u m).isSome then replaceU m u v else m ++ [(u, v)]

/-! ## Art-Net codec (artnet_core.py) -/

/-- The magic header `b"Art-Net\x00"` as byte values. -/
def magicBytes : List Nat := [65, 114, 116, 45, 78, 101, 116, 0]

/-- Python `struct.unpack("<H", ...)` of two bytes. -/
def uint16LE (b0 b1 : Nat) : Nat := b0 + 256 * b1

/-- Python `struct.unpack(">H", ...)` of two bytes. -/
def uint16BE (b0 b1 : Nat) : Nat := 256 * b0 + b1

/-- artnet_core._build_artdmx: frame one ArtDMX packet.
`struct.pack` of the universe raises for `universe ≥ 2^16`; the claims only
quantify below that bound, where the modelled low/high bytes agree with it. -/
def buildArtdmx (univ : Nat) (dmx : Bytes) (sequence : Nat) : List Nat :=
  let dmx512 := pad512 dmx
  magicBytes
    ++ [0x00, 0x50]
    ++ [0, 14]
    ++ [sequence % 256]
    ++ [0]
    ++ [univ % 256, univ / 256 % 256]
    ++ [2, 0]
    ++ dmx512

/-- artnet_core._parse_artdmx: parse an inbound ArtDMX packet.
All failure paths (`return None`) become `none`; indexing is guarded by the
initial length check exactly as in the source, so no exception can occur. -/
def parseArtdmx (data : List Nat) : Option (Nat × Bytes) :=
  if data.length < 18 then none
  else if data.take 8 ≠ magicBytes then none
  else
    let opcode := uint16LE (data.getD 8 0) (data.getD 9 0)
    if opcode ≠ 0x5000 then none
    else
      let univ := uint16LE (data.getD 14 0) (data.getD 15 0)
      let length := uint16BE (data.getD 16 0) (data.getD 17 0)
      if data.length < 18 + length then none
      else some (univ, (data.drop 18).take length)

/-- api._parse_artdmx_packet: the API-side ArtDMX parser.  It differs from
artnet_core._parse_artdmx in one place: `if length < 1 or ...` also rejects
packets whose length field is zero. -/
def parseArtdmxPacket (data : List Nat) : Option (Nat × Bytes) :=
  if data.length < 18 then none
  else if data.take 8 ≠ magicBytes then none
  else
    let opcode := uint16LE (data.getD 8 0) (data.getD 9 0)
    if opcode ≠ 0x5000 then none
    else
      let univ := uint16LE (data.getD 14 0) (data.getD 15 0)
      let length := uint16BE (data.getD 16 0) (data.getD 17 0)
      if length < 1 then none
      else if data.length < 18 + length then none
      else some (univ, (data.drop 18).take length)

/-- The validity condition the spec states for ArtDMX parsing: at least 18
bytes, magic header, opcode `0x5000`, and `18 + length ≤ packet_size`. -/
def artdmxOk (data : List Nat) : Bool :=
  decide (18 ≤ data.length)
    && decide (data.take 8 = magicBytes)
    && decide (uint16LE (data.getD 8 0) (data.getD 9 0) = 0x5000)
    && decide (18 + uint16BE (data.getD 16 0) (data.getD 17 0) ≤ data.length)

/-- The universe field read little-endian at offset 14. -/
def universeField (data : List Nat) : Nat :=
  uint16LE (data.getD 14 0) (data.getD 15 0)

/-- The length field read big-endian at offset 16. -/
def lengthField (data : List Nat) : Nat :=
  uint16BE (data.getD 16 0) (data.getD 17 0)

/-- The streaming controller singleton of artnet_core.py, reduced to the
state observable by start_stream: the (normalized) payload it broadcasts. -/
structure Controller where
  universe_to_dmx : UMap
deriving DecidableEq

/-- artnet_core.start_stream acting on the singleton `_controller`:
an empty mapping returns immediately (after a log line); otherwise the
previous controller is stopped and a fresh one is created whose payload is
each buffer truncated/padded to 512 bytes. -/
def startStream (st : Option Controller) (universe_to_dmx : UMap) : Option Controller :=
  if universe_to_dmx.isEmpty then st
  else some ⟨universe_to_dmx.map fun q => (q.1, pad512 q.2)⟩

/-! ## Playback mixer (api.py) -/

/-- One entry of the group dimmer layout consumed by api._apply_group_dimmers:
key, percent, mute flag and 1-based `(universe, channel)` addresses.
(`name`, `fixture_count` and `channel_count` are not read by the mixer.) -/
structure Group where
  key : String
  value_percent : Nat
  muted : Bool
  addresses : List (Nat × Nat)
deriving DecidableEq

/-- Append an index to the per-universe bucket
(Python `intensity_by_universe.setdefault(universe, []).append(channel - 1)`). -/
def pushBucket (m : List (Nat × List Nat)) (u : Nat) (i : Nat) : List (Nat × List Nat) :=
  if (List.lookup u m).isSome then
    m.map fun q => if q.1 = u then (q.1, q.2 ++ [i]) else q
  else m ++ [(u, [i])]

/-- The `intensity_by_universe` dict built by api._apply_master_dimmer:
0-based channel indices of the in-range intensity addresses, bucketed per
universe in first-occurrence order. -/
def intensityByUniverse (addrs : List (Nat × Nat)) : List (Nat × List Nat) :=
  addrs.foldl
    (fun m a => if 1 ≤ a.2 ∧ a.2 ≤ 512 then pushBucket m a.1 (a.2 - 1) else m) []

/-- Scale the listed channel indices of a buffer in place
(the inner loop of the parameter-aware master dimmer branch). -/
def scaleIndices (values : Bytes) (idxs : List Nat) (percent : Nat) : Bytes :=
  idxs.foldl (fun vs i => vs.set i (scaleChannel (vs.getD i 0) percent)) values

/-- api._apply_master_dimmer.  `intensity_addresses` is the result of
fixture_plan.get_intensity_addresses (a set, here enumerated as a list —
the claims proved about this function do not depend on set iteration
order).  Returns the scaled payload and the reported mode string. -/
def applyMasterDimmer (intensity_addresses : Option (List (Nat × Nat)))
    (payload : UMap) (dimmer_percent : Nat) : UMap × String :=
  let clamped := min 100 dimmer_percent
  if clamped = 100 then
    (payload, if intensity_addresses.isSome then "parameter-aware" else "raw")
  else
    match intensity_addresses with
    | none =>
      (payload.map fun q => (q.1, (pad512 q.2).map fun v => scaleChannel v clamped), "raw")
    | some addrs =>
      let out := (intensityByUniverse addrs).foldl
        (fun out q =>
          match List.lookup q.1 out with
          | none => out
          | some dmx => replaceU out q.1 (scaleIndices (pad512 dmx) q.2 clamped))
        payload
      (out, "parameter-aware")

/-- Python `d[k] = v` on the `per_channel_percent` dict keyed by
`(universe, channel_index)`. -/
def storePC (m : List ((Nat × Nat) × Nat)) (k : Nat × Nat) (v : Nat) :
    List ((Nat × Nat) × Nat) :=
  if (List.lookup k m).isSome then
    m.map fun q => if q.1 = k then (k, v) else q
  else m ++ [(k, v)]

/-- The `per_channel_percent` dict of api._apply_group_dimmers: for every
group with effective percent `0 if muted else clamp(value_percent)` below
100, fold the minimum percent into each in-range address. -/
def perChannelPercent (layout : List Group) : List ((Nat × Nat) × Nat) :=
  layout.foldl
    (fun m g =>
      let percent := if g.muted then 0 else max 0 (min 100 g.value_percent)
      if 100 ≤ percent then m
      else
        g.addresses.foldl
          (fun m2 a =>
            if a.2 < 1 ∨ 512 < a.2 then m2
            else
              let k := (a.1, a.2 - 1)
              let existing := (List.lookup k m2).getD 100
              storePC m2 k (min existing percent))
          m)
    []

/-- The `by_universe` regrouping of `per_channel_percent` entries. -/
def byUniverse (pcs : List ((Nat × Nat) × Nat)) : List (Nat × List (Nat × Nat)) :=
  pcs.foldl
    (fun m e =>
      if (List.lookup e.1.1 m).isSome then
        m.map fun q => if q.1 = e.1.1 then (q.1, q.2 ++ [(e.1.2, e.2)]) else q
      else m ++ [(e.1.1, [(e.1.2, e.2)])])
    []

/-- Scale each `(channel_index, percent)` entry of a buffer in place
(the application loop of api._apply_group_dimmers). -/
def applyScales (values : Bytes) (entries : List (Nat × Nat)) : Bytes :=
  entries.foldl (fun vs e => vs.set e.1 (scaleChannel (vs.getD e.1 0) e.2)) values

/-- api._apply_group_dimmers.  The layout argument is the result of
api._get_group_dimmer_layout (`none` when no fixture plan is active). -/
def applyGroupDimmers (layout : Option (List Group)) (payload : UMap) : UMap :=
  match layout with
  | none => payload
  | some groups =>
    let pcs := perChannelPercent groups
    if pcs.isEmpty then payload
    else
      (byUniverse pcs).foldl
        (fun out q =>
          match List.lookup q.1 out with
          | none => out
          | some dmx => replaceU out q.1 (applyScales (pad512 dmx) q.2))
        payload

/-- The atmosphere-relevant fields of config.Settings. -/
structure AtmoConfig where
  haze_universe : Nat
  haze_channel : Nat
  fog_flash_universe : Nat
  fog_flash_channel : Nat
deriving DecidableEq

/-- api._has_haze_channel_configured. -/
def hasHazeConfigured (cfg : AtmoConfig) : Bool :=
  decide (0 < cfg.haze_channel) && decide (0 < cfg.haze_universe)

/-- api._has_fog_channel_configured. -/
def hasFogConfigured (cfg : AtmoConfig) : Bool :=
  decide (0 < cfg.fog_flash_channel) && decide (0 < cfg.fog_flash_universe)

/-- The `ensure_universe` helper of api._apply_atmosphere_controls:
a fresh all-zero buffer when the universe is missing, the padded existing
buffer otherwise. -/
def ensureUniverse (output : UMap) (u : Nat) : Bytes :=
  match List.lookup u output with
  | none => List.replicate 512 0
  | some existing => pad512 existing

/-- api._apply_atmosphere_controls, parameterized over the settings fields
and the module state `HAZE_PERCENT` / `FOG_FLASH_ACTIVE` it reads. -/
def applyAtmosphereControls (cfg : AtmoConfig) (haze_percent : Nat)
    (fog_flash_active : Bool) (payload : UMap) : UMap :=
  let output := payload
  let output :=
    if hasHazeConfigured cfg then
      let hu := cfg.haze_universe - 1
      let hi := cfg.haze_channel - 1
      if hi < 512 then
        storeU output hu
          ((ensureUniverse output hu).set hi
            (max 0 (min 255 (pyRound (haze_percent * 255) 100))))
      else output
    else output
  if hasFogConfigured cfg then
    let fu := cfg.fog_flash_universe - 1
    let fi := cfg.fog_flash_channel - 1
    if fi < 512 then
      storeU output fu
        ((ensureUniverse output fu).set fi (if fog_flash_active then 255 else 0))
    else output
  else output

/-- The mixer composition of api._refresh_stream_from_base_payload:
master dimmer, then group dimmers, then atmosphere overlay. -/
def effectivePayload (intensity_addresses : Option (List (Nat × Nat)))
    (layout : Option (List Group)) (cfg : AtmoConfig)
    (master haze : Nat) (fog : Bool) (base : UMap) : UMap :=
  applyAtmosphereControls cfg haze fog
    (applyGroupDimmers layout (applyMasterDimmer intensity_addresses base master).1)

/-- Modelled from the spec: `is_stream_running` and `update_stream` are
imported by api.py but absent from the sources under src/; per §4.2 of the
spec, `update` keeps the stream running with the new payload and `start`
starts it (start_stream in src/ confirms the non-empty case starts threads).
api._refresh_stream_from_base_payload therefore leaves a stream running
after it exactly when the effective payload is non-empty: non-empty
payloads are started or updated, empty ones reach `stop_stream()`. -/
def streamRunsAfterRefresh (intensity_addresses : Option (List (Nat × Nat)))
    (layout : Option (List Group)) (cfg : AtmoConfig)
    (master haze : Nat) (fog : Bool) (base : UMap) : Bool :=
  !(effectivePayload intensity_addresses layout cfg master haze fog base).isEmpty

/-! ## Group dimmer layout state (api._get_group_dimmer_layout) -/

/-- One group as returned by fixture_plan.get_intensity_groups. -/
structure IGroup where
  key : String
  name : String
  fixture_count : Nat
  channel_count : Nat
  addresses : List (Nat × Nat)
deriving DecidableEq

/-- First-occurrence deduplication, keeping the order of first appearance. -/
def firstDedup {α : Type} [DecidableEq α] (l : List α) : List α :=
  l.foldl (fun acc x => if x ∈ acc then acc else acc ++ [x]) []

/-- Python `max(0, min(100, int(v)))`. -/
def clamp100 (v : Int) : Int := max 0 (min 100 v)

/-- api._get_group_dimmer_layout, parameterized over the
fixture_plan.get_intensity_groups result (absent from src/, only consumed
here) and the prior module state `GROUP_DIMMER_VALUES` / `GROUP_DIMMER_MUTED`.
Returns the layout together with the new values and muted state. -/
def getGroupDimmerLayout (groups : Option (List IGroup))
    (values : List (String × Int)) (muted : List String) :
    Option (List Group) × List (String × Int) × List String :=
  match groups with
  | none => (none, [], [])
  | some gs =>
    let keys := firstDedup (gs.map (·.key))
    let newValues := keys.map fun k => (k, clamp100 ((List.lookup k values).getD 100))
    let newMuted := muted.filter fun k => decide (k ∈ keys)
    let layout := gs.map fun g =>
      { key := g.key
        value_percent := ((List.lookup g.key newValues).getD 100).toNat
        muted := decide (g.key ∈ newMuted)
        addresses := g.addresses : Group }
    (some layout, newValues, newMuted)

/-! ## Scene order (scenes.set_scene_order) -/

/-- scenes.set_scene_order, parameterized over the result of
scenes._current_scene_ids (the sorted id list of the stored scene files). -/
def setSceneOrder (existing : List String) (scene_ids : List String) : List String :=
  let ordered := scene_ids.foldl
    (fun acc sid => if sid ∈ existing ∧ sid ∉ acc then acc ++ [sid] else acc) []
  existing.foldl (fun acc sid => if sid ∈ acc then acc else acc ++ [sid]) ordered

/-! ## Delta-v1 animated frame codec (scenes.py) -/

/-- One animated frame: timestamp plus per-universe 512-value arrays. -/
structure Frame where
  timestamp_ms : Nat
  universes : UMap
deriving DecidableEq

/-- One frame of the compact form: timestamp plus per-universe channel
diffs.  Python omits the `changes` key when no channel changed; iterating
an absent entry and an empty one are indistinguishable, so the empty list
stands for both. -/
structure PackedFrame where
  timestamp_ms : Nat
  changes : List (Nat × List (Nat × Nat))
deriving DecidableEq

/-- The delta-v1 compact on-disk form. -/
structure CompactAnimated where
  encoding : String
  initial : UMap
  frames : List PackedFrame
deriving DecidableEq

/-- The diff loop of scenes._compress_animated_frames, with `k` the index of
the first element of the remaining buffers: emit `(index, value)` for every
channel whose value differs from the previous frame.  The source indexes
`prev_values[index]` under `enumerate(curr_values)`; buffers of unequal
length (on which Python would raise IndexError) never occur on validated
frames, both are 512 long. -/
def diffPairsFrom : Nat → List Nat → List Nat → List (Nat × Nat)
  | _, _, [] => []
  | _, [], _ :: _ => []
  | k, p :: prev, v :: curr =>
    (if v ≠ p then [(k, v)] else []) ++ diffPairsFrom (k + 1) prev curr

/-- The channel diff between two buffers. -/
def diffPairs (prev curr : List Nat) : List (Nat × Nat) :=
  diffPairsFrom 0 prev curr

/-- Apply `(index, value)` pairs to a buffer in order
(Python `universe_values[channel_index] = value` in a loop). -/
def applyPairs (values : List Nat) (pairs : List (Nat × Nat)) : List Nat :=
  pairs.foldl (fun vs pr => vs.set pr.1 pr.2) values

/-- Ascending insertion into a sorted list. -/
def insertSorted (x : Nat) : List Nat → List Nat
  | [] => [x]
  | y :: ys => if x ≤ y then x :: y :: ys else y :: insertSorted x ys

/-- Python `sorted` on a list of naturals (insertion sort). -/
def sortKeys (l : List Nat) : List Nat := l.foldr insertSorted []

/-- The per-frame `changes` dict of scenes._compress_animated_frames,
iterating `universe_ids` in sorted order; a missing universe (Python
KeyError) yields `none`. -/
def changesFor : List Nat → UMap → UMap → Option (List (Nat × List (Nat × Nat)))
  | [], _, _ => some []
  | u :: rest, prev, curr =>
    match List.lookup u prev, List.lookup u curr with
    | some pv, some cv =>
      (changesFor rest prev curr).map fun cs =>
        let d := diffPairs pv cv
        if d.isEmpty then cs else (u, d) :: cs
    | _, _ => none

/-- The main loop of scenes._compress_animated_frames: thread the previous
frame through and pack each frame. -/
def compressFrames (ids : List Nat) : UMap → List Frame → Option (List PackedFrame)
  | _, [] => some []
  | prev, f :: rest => do
    let cs ← changesFor ids prev f.universes
    let tail ← compressFrames ids f.universes rest
    pure (⟨f.timestamp_ms, cs⟩ :: tail)

/-- scenes._compress_animated_frames.  An empty list raises (none); the
loop runs over all frames, the first one diffed against itself. -/
def compressAnimatedFrames (frames : List Frame) : Option CompactAnimated :=
  match frames with
  | [] => none
  | f0 :: _ =>
    let ids := sortKeys (f0.universes.map (·.1))
    (compressFrames ids f0.universes frames).map fun pfs =>
      ⟨"delta-v1", f0.universes, pfs⟩

/-- scenes._validate_universes as a boolean: every buffer has exactly 512
values, each in `0..=255` (the non-bool integer check is type-level here). -/
def validUniverses (m : UMap) : Bool :=
  m.all fun q => decide (q.2.length = 512) && q.2.all (· ≤ 255)

/-- The change-application loop of scenes._decompress_animated_frames for
one compact frame: unknown universes and out-of-range channel indices or
values raise (none).  Python validates each pair just before writing it and
a failure aborts the whole decompression, so checking a universe's pair
list first and then writing is observationally identical. -/
def applyChanges : UMap → List (Nat × List (Nat × Nat)) → Option UMap
  | cur, [] => some cur
  | cur, (u, pairs) :: more =>
    match List.lookup u cur with
    | none => none
    | some vs =>
      if pairs.all (fun pr => decide (pr.1 < 512) && decide (pr.2 ≤ 255)) then
        applyChanges (replaceU cur u (applyPairs vs pairs)) more
      else none

/-- The frame loop of scenes._decompress_animated_frames: accumulate diffs
into `current` and append a copy per compact frame. -/
def decompressFrames : UMap → List PackedFrame → Option (List Frame)
  | _, [] => some []
  | cur, pf :: rest => do
    let cur2 ← applyChanges cur pf.changes
    let tail ← decompressFrames cur2 rest
    pure (⟨pf.timestamp_ms, cur2⟩ :: tail)

/-- scenes._decompress_animated_frames: check the encoding tag, validate the
initial state, then expand the diffs. -/
def decompressAnimatedFrames (c : CompactAnimated) : Option (List Frame) :=
  if c.encoding ≠ "delta-v1" then none
  else if validUniverses c.initial then decompressFrames c.initial c.frames
  else none

/-- Python dict equality on universe maps: identical key sets and values,
insertion order ignored. -/
def dictEqB (m1 m2 : UMap) : Bool :=
  m1.all (fun q => List.lookup q.1 m2 == some q.2)
    && m2.all (fun q => List.lookup q.1 m1 == some q.2)

/-- Python `==` on frame lists: same length, and pairwise equal timestamps
and dict-equal universe maps. -/
def framesEqB (a b : List Frame) : Bool :=
  decide (a.length = b.length)
    && (a.zip b).all fun pr =>
        pr.1.timestamp_ms == pr.2.timestamp_ms && dictEqB pr.1.universes pr.2.universes

/-- Same key set (Python `set(d1) == set(d2)`). -/
def sameKeysB (m1 m2 : UMap) : Bool :=
  m1.all (fun q => (List.lookup q.1 m2).isSome)
    && m2.all (fun q => (List.lookup q.1 m1).isSome)

/-- A valid animated frame sequence in the sense of the scene model:
non-empty, every frame a dict (unique keys) of exactly-512 arrays with
values in `0..=255`, and all frames sharing one universe key set. -/
def validFrames (frames : List Frame) : Bool :=
  match frames with
  | [] => false
  | f0 :: _ =>
    frames.all fun f =>
      validUniverses f.universes
        && decide (f.universes.map (·.1)).Nodup
        && sameKeysB f.universes f0.universes

/-! ## Specification-side definitions (for refinement statements) -/

/-- Following the spec wording for set_scene_order: the requested ids that
exist, duplicates dropped, in first-occurrence order. -/
def keptFromRequest (existing xs : List String) : List String :=
  firstDedup (xs.filter fun sid => decide (sid ∈ existing))

/-- Following the spec wording for group dimmers: the effective percent of a
channel is the minimum over all groups whose address set contains the
1-based `(u, i + 1)` of `0 if muted else value_percent`, defaulting to 100. -/
def specMinPercent (layout : List Group) (u i : Nat) : Nat :=
  layout.foldl
    (fun acc g =>
      if (u, i + 1) ∈ g.addresses then
        min acc (if g.muted then 0 else g.value_percent)
      else acc)
    100

/-- A syntactically valid 18-byte ArtDMX packet whose length field is zero. -/
def zeroLenPacket : List Nat :=
  magicBytes ++ [0x00, 0x50, 0, 14, 0, 0, 0, 0, 0, 0]

/-- Group G1 of the spec example: addresses (0,1) and (0,2) at 60 percent. -/
def exampleG1 : Group := ⟨"g1", 60, false, [(0, 1), (0, 2)]⟩

/-- Group G2 of the spec example: addresses (0,2) and (0,3) at 20 percent. -/
def exampleG2 : Group := ⟨"g2", 20, false, [(0, 2), (0, 3)]⟩

/-- The spec example base payload: universe 0 at 200 on all 512 channels. -/
def exampleBase : UMap := [(0, List.replicate 512 200)]

/-- An atmosphere configuration with only the haze channel configured
(universe 1, channel 1, both 1-based). -/
def cfgHazeOnly : AtmoConfig := ⟨1, 1, 1, 0⟩

/-! ## General helper lemmas -/

theorem pad512_length (dmx : Bytes) : (pad512 dmx).length = 512 := by
  simp [pad512]

theorem foldl_preserve_nil {β : Type} (g : UMap → β → UMap)
    (hg : ∀ b, g [] b = []) (l : List β) : l.foldl g [] = [] := by
  induction l with
  | nil => rfl
  | cons x xs ih => simpa [hg] using ih

theorem applyMasterDimmer_nil (ia : Option (List (Nat × Nat))) (p : Nat) :
    (applyMasterDimmer ia [] p).1 = [] := by
  unfold applyMasterDimmer
  cases ia with
  | none => dsimp only; split <;> rfl
  | some addrs =>
    dsimp only
    split
    · rfl
    · exact foldl_preserve_nil _ (fun b => rfl) _

theorem applyGroupDimmers_nil (layout : Option (List Group)) :
    applyGroupDimmers layout [] = [] := by
  unfold applyGroupDimmers
  cases layout with
  | none => rfl
  | some groups =>
    dsimp only
    split
    · rfl
    · exact foldl_preserve_nil _ (fun b => rfl) _

theorem artdmx_cons (univ : Nat) (dmx : Bytes) (sequence : Nat) :
    buildArtdmx univ dmx sequence =
      65 :: 114 :: 116 :: 45 :: 78 :: 101 :: 116 :: 0 :: 0 :: 80 :: 0 :: 14 ::
      (sequence % 256) :: 0 :: (univ % 256) :: (univ / 256 % 256) :: 2 :: 0 ::
      pad512 dmx := by
  simp [buildArtdmx, magicBytes]

/-! ## C9: start_stream with an empty mapping -/

/-- C9: calling start_stream with an empty universe-to-payload mapping is a
no-op on the streaming controller singleton: a running controller keeps its
previous payload and an absent controller stays absent. -/
theorem start_stream_empty_noop (st : Option Controller) :
    startStream st [] = st := by
  simp [startStream]

/-! ## C4: ArtDMX framing is bit-exact -/

/-- C4: for every universe index below 2^16, payload and sequence number,
the built ArtDMX packet is exactly 530 bytes: magic at 0-7, opcode bytes
0x00 0x50 at 8-9, protocol version 0 14 at 10-11, sequence mod 256 at 12,
zero at 13, universe little-endian at 14-15, 512 big-endian at 16-17, and
the payload truncated to 512 and right-padded with zeros at 18-529. -/
theorem artdmx_packet_bitexact (univ : Nat) (dmx : Bytes) (sequence : Nat)
    (h : univ < 65536) :
    (buildArtdmx univ dmx sequence).length = 530 ∧
    (buildArtdmx univ dmx sequence).take 8 = magicBytes ∧
    (buildArtdmx univ dmx sequence).getD 8 0 = 0x00 ∧
    (buildArtdmx univ dmx sequence).getD 9 0 = 0x50 ∧
    (buildArtdmx univ dmx sequence).getD 10 0 = 0 ∧
    (buildArtdmx univ dmx sequence).getD 11 0 = 14 ∧
    (buildArtdmx univ dmx sequence).getD 12 0 = sequence % 256 ∧
    (buildArtdmx univ dmx sequence).getD 13 0 = 0 ∧
    (buildArtdmx univ dmx sequence).getD 14 0 = univ % 256 ∧
    (buildArtdmx univ dmx sequence).getD 15 0 = univ / 256 ∧
    (buildArtdmx univ dmx sequence).getD 16 0 = 2 ∧
    (buildArtdmx univ dmx sequence).getD 17 0 = 0 ∧
    (buildArtdmx univ dmx sequence).drop 18 =
      dmx.take 512 ++ List.replicate (512 - min 512 dmx.length) 0 := by
  have hdiv : univ / 256 % 256 = univ / 256 := Nat.mod_eq_of_lt (by omega)
  refine ⟨?_, ?_, ?_, ?_, ?_, ?_, ?_, ?_, ?_, ?_, ?_, ?_, ?_⟩ <;>
    simp [buildArtdmx, magicBytes, pad512_length, hdiv, pad512, List.length_take]

/-- Witness for C4 at universe 1, payload [7, 8], sequence 300. -/
theorem artdmx_packet_bitexact_witness :
    (buildArtdmx 1 [7, 8] 300).length = 530 ∧
    (buildArtdmx 1 [7, 8] 300).take 8 = magicBytes ∧
    (buildArtdmx 1 [7, 8] 300).getD 8 0 = 0x00 ∧
    (buildArtdmx 1 [7, 8] 300).getD 9 0 = 0x50 ∧
    (buildArtdmx 1 [7, 8] 300).getD 10 0 = 0 ∧
    (buildArtdmx 1 [7, 8] 300).getD 11 0 = 14 ∧
    (buildArtdmx 1 [7, 8] 300).getD 12 0 = 300 % 256 ∧
    (buildArtdmx 1 [7, 8] 300).getD 13 0 = 0 ∧
    (buildArtdmx 1 [7, 8] 300).getD 14 0 = 1 % 256 ∧
    (buildArtdmx 1 [7, 8] 300).getD 15 0 = 1 / 256 ∧
    (buildArtdmx 1 [7, 8] 300).getD 16 0 = 2 ∧
    (buildArtdmx 1 [7, 8] 300).getD 17 0 = 0 ∧
    (buildArtdmx 1 [7, 8] 300).drop 18 =
      [7, 8].take 512 ++ List.replicate (512 - min 512 [7, 8].length) 0 :=
  artdmx_packet_bitexact 1 [7, 8] 300 (by decide)

/-! ## C8: ArtDMX parsing -/

/-- C8 counterexample: an 18-byte packet with valid magic, opcode 0x5000 and
length field 0 satisfies every condition of the claim, and the artnet_core
parser accepts it, yet the api-side parser returns None — so the claim that
parsing returns Some exactly under those conditions is false for
api._parse_artdmx_packet. -/
theorem parse_artdmx_zero_length_divergence :
    artdmxOk zeroLenPacket = true ∧
    parseArtdmx zeroLenPacket = some (0, []) ∧
    parseArtdmxPacket zeroLenPacket = none := by
  refine ⟨by decide, by decide, by decide⟩

/-- C8 amended: artnet_core._parse_artdmx returns Some (universe LE at 14,
payload[0..length BE at 16]) exactly when the packet is at least 18 bytes,
starts with the magic, has opcode 0x5000 and satisfies
18 + length ≤ size — and None otherwise; api._parse_artdmx_packet behaves
identically except that it additionally requires length ≥ 1. -/
theorem parse_artdmx_exact (data : List Nat) :
    (parseArtdmx data =
      if artdmxOk data then
        some (universeField data, (data.drop 18).take (lengthField data))
      else none) ∧
    (parseArtdmxPacket data =
      if artdmxOk data && decide (1 ≤ lengthField data) then
        some (universeField data, (data.drop 18).take (lengthField data))
      else none) := by
  constructor <;>
  · simp only [parseArtdmx, parseArtdmxPacket, artdmxOk, universeField, lengthField]
    split_ifs <;> simp_all <;> omega

/-! ## C1: mixing at the identity settings -/

/-- C1: with master dimmer 100, an absent group dimmer layout, haze percent
0, fog flash inactive and no atmosphere channel configured, the mixer
composition master → groups → atmosphere returns the base payload
unchanged. -/
theorem mixer_identity_at_defaults (ia : Option (List (Nat × Nat)))
    (P : UMap) (cfg : AtmoConfig)
    (hHaze : hasHazeConfigured cfg = false)
    (hFog : hasFogConfigured cfg = false) :
    applyAtmosphereControls cfg 0 false
      (applyGroupDimmers none (applyMasterDimmer ia P 100).1) = P := by
  simp [applyMasterDimmer, applyGroupDimmers, applyAtmosphereControls, hHaze, hFog]

/-- Witness for C1: a concrete payload and an unconfigured atmosphere. -/
theorem mixer_identity_at_defaults_witness :
    applyAtmosphereControls ⟨1, 0, 1, 0⟩ 0 false
      (applyGroupDimmers none
        (applyMasterDimmer none [(0, List.replicate 512 5)] 100).1)
      = [(0, List.replicate 512 5)] :=
  mixer_identity_at_defaults none [(0, List.replicate 512 5)] ⟨1, 0, 1, 0⟩
    (by decide) (by decide)

/-! ## C3: empty base payload and the stream -/

/-- C3 counterexample: with a configured haze channel (universe 1,
channel 1) the mixer turns the empty base payload into a non-empty
effective payload (it creates the haze universe), and refreshing the stream
from the empty base payload therefore leaves a stream running instead of
stopping it — the claim fails exactly in the configured case it singles
out. -/
theorem empty_base_configured_haze_keeps_stream :
    effectivePayload none none cfgHazeOnly 100 0 false [] ≠ [] ∧
    streamRunsAfterRefresh none none cfgHazeOnly 100 0 false [] = true := by
  refine ⟨by decide, by decide⟩

/-- C3 amended: for every state of the dimmer and atmosphere controls in
which no haze or fog-flash channel is configured, an empty base payload
yields an empty effective payload and refreshing the stream from the base
payload stops the stream.  (When an atmosphere channel is configured the
mixer creates that universe and the stream keeps running, as the
counterexample shows.) -/
theorem empty_base_no_atmosphere_stops_stream
    (ia : Option (List (Nat × Nat))) (layout : Option (List Group))
    (cfg : AtmoConfig) (master haze : Nat) (fog : Bool)
    (hHaze : hasHazeConfigured cfg = false)
    (hFog : hasFogConfigured cfg = false) :
    effectivePayload ia layout cfg master haze fog [] = [] ∧
    streamRunsAfterRefresh ia layout cfg master haze fog [] = false := by
  have hmaster : (applyMasterDimmer ia [] master).1 = [] :=
    applyMasterDimmer_nil ia master
  have hgroups : applyGroupDimmers layout [] = [] :=
    applyGroupDimmers_nil layout
  have heff : effectivePayload ia layout cfg master haze fog [] = [] := by
    unfold effectivePayload
    rw [hmaster, hgroups]
    simp [applyAtmosphereControls, hHaze, hFog]
  exact ⟨heff, by simp [streamRunsAfterRefresh, heff]⟩

/-- Witness for C3 (amended) at a concrete unconfigured atmosphere state. -/
theorem empty_base_no_atmosphere_stops_stream_witness :
    effectivePayload none none ⟨1, 0, 1, 0⟩ 40 30 true [] = [] ∧
    streamRunsAfterRefresh none none ⟨1, 0, 1, 0⟩ 40 30 true [] = false :=
  empty_base_no_atmosphere_stops_stream none none ⟨1, 0, 1, 0⟩ 40 30 true
    (by decide) (by decide)

/-! ## C10: group dimmer state invariant -/

theorem firstDedup_loop_mem {α : Type} [DecidableEq α] (l : List α) :
    ∀ (acc : List α) (x : α),
      (x ∈ l.foldl (fun acc y => if y ∈ acc then acc else acc ++ [y]) acc ↔
        x ∈ acc ∨ x ∈ l) := by
  induction l with
  | nil => intro acc x; simp
  | cons y ys ih =>
    intro acc x
    by_cases hy : y ∈ acc
    · rw [List.foldl_cons, if_pos hy, ih]
      constructor
      · rintro (h | h)
        · exact Or.inl h
        · exact Or.inr (List.mem_cons_of_mem _ h)
      · rintro (h | h)
        · exact Or.inl h
        · rcases List.mem_cons.1 h with h | h
          · exact Or.inl (h ▸ hy)
          · exact Or.inr h
    · rw [List.foldl_cons, if_neg hy, ih]
      simp [List.mem_append, List.mem_cons, or_assoc]

theorem firstDedup_mem {α : Type} [DecidableEq α] (l : List α) (x : α) :
    x ∈ firstDedup l ↔ x ∈ l := by
  unfold firstDedup
  rw [firstDedup_loop_mem]
  simp

theorem firstDedup_loop_nodup {α : Type} [DecidableEq α] (l : List α) :
    ∀ acc : List α, acc.Nodup →
      (l.foldl (fun acc y => if y ∈ acc then acc else acc ++ [y]) acc).Nodup := by
  induction l with
  | nil => intro acc h; exact h
  | cons y ys ih =>
    intro acc h
    by_cases hy : y ∈ acc
    · rw [List.foldl_cons, if_pos hy]; exact ih acc h
    · rw [List.foldl_cons, if_neg hy]
      exact ih _ (by simp [List.nodup_append, h, hy])

theorem firstDedup_nodup {α : Type} [DecidableEq α] (l : List α) :
    (firstDedup l).Nodup :=
  firstDedup_loop_nodup l [] List.nodup_nil

theorem lookup_map_self {α β : Type} [DecidableEq α] [BEq α] [LawfulBEq α]
    (l : List α) (f : α → β) (k : α) :
    List.lookup k (l.map fun x => (x, f x)) =
      if k ∈ l then some (f k) else none := by
  induction l with
  | nil => simp
  | cons x xs ih =>
    by_cases hk : k = x
    · subst hk
      have hbeq : (k == k) = true := beq_self_eq_true k
      simp [List.lookup, hbeq]
    · have hbeq : (k == x) = false := beq_false_of_ne hk
      simp only [List.map_cons, List.lookup, hbeq, List.mem_cons]
      rw [ih]
      by_cases hm : k ∈ xs <;> simp [hm, hk]

/-- C10: after api._get_group_dimmer_layout runs, GROUP_DIMMER_VALUES maps
exactly the active fixture plan's group keys (each exactly once) to the
stored value clamped into 0..=100, with 100 as default for absent keys, and
GROUP_DIMMER_MUTED only contains plan keys; with no active plan both
collections are emptied. -/
theorem group_layout_state_invariant (values : List (String × Int))
    (muted : List String) :
    ((getGroupDimmerLayout none values muted).2 = ([], [])) ∧
    ∀ gs : List IGroup,
      (∀ k, List.lookup k (getGroupDimmerLayout (some gs) values muted).2.1 =
        if k ∈ gs.map (·.key) then
          some (clamp100 ((List.lookup k values).getD 100))
        else none) ∧
      (∀ k v, (k, v) ∈ (getGroupDimmerLayout (some gs) values muted).2.1 →
        0 ≤ v ∧ v ≤ 100) ∧
      ((getGroupDimmerLayout (some gs) values muted).2.1.map Prod.fst).Nodup ∧
      (∀ k ∈ (getGroupDimmerLayout (some gs) values muted).2.2, k ∈ gs.map (·.key)) := by
  refine ⟨rfl, fun gs => ⟨?_, ?_, ?_, ?_⟩⟩
  · intro k
    show List.lookup k ((firstDedup (gs.map (·.key))).map
      fun k => (k, clamp100 ((List.lookup k values).getD 100))) = _
    rw [lookup_map_self]
    by_cases hk : k ∈ gs.map (·.key) <;>
      simp [hk, firstDedup_mem]
  · intro k v hv
    replace hv : (k, v) ∈ (firstDedup (gs.map (·.key))).map
        (fun k => (k, clamp100 ((List.lookup k values).getD 100))) := hv
    have hv2 : ∃ k0, k0 ∈ firstDedup (gs.map (·.key)) ∧
        k0 = k ∧ clamp100 ((List.lookup k0 values).getD 100) = v := by
      simpa [Prod.ext_iff] using hv
    obtain ⟨k0, _, rfl, rfl⟩ := hv2
    refine ⟨by simp [clamp100], ?_⟩
    simp only [clamp100]
    omega
  · show (((firstDedup (gs.map (·.key))).map
      fun k => (k, clamp100 ((List.lookup k values).getD 100))).map Prod.fst).Nodup
    rw [List.map_map]
    have hfun : (Prod.fst ∘ fun k : String =>
        (k, clamp100 ((List.lookup k values).getD 100))) = fun k => k := rfl
    rw [hfun, List.map_id']
    exact firstDedup_nodup (gs.map (·.key))
  · intro k hk
    replace hk : k ∈ muted.filter
        (fun k => decide (k ∈ firstDedup (gs.map (·.key)))) := hk
    have hk2 : k ∈ firstDedup (gs.map (·.key)) := by
      simpa using (List.mem_filter.1 hk).2
    exact (firstDedup_mem _ _).1 hk2

/-- Witness for C10 at a concrete plan, prior values and muted set. -/
theorem group_layout_state_invariant_witness :
    ((getGroupDimmerLayout none [("a", 130)] ["a", "z"]).2 = ([], [])) ∧
    (List.lookup "a" (getGroupDimmerLayout
        (some [⟨"a", "A", 1, 2, [(0, 1)]⟩, ⟨"b", "B", 1, 1, [(0, 2)]⟩])
        [("a", 130)] ["a", "z"]).2.1 =
      if "a" ∈ ([⟨"a", "A", 1, 2, [(0, 1)]⟩, ⟨"b", "B", 1, 1, [(0, 2)]⟩] :
          List IGroup).map (·.key) then
        some (clamp100 ((List.lookup "a" [("a", (130 : Int))]).getD 100))
      else none) ∧
    (∀ k ∈ (getGroupDimmerLayout
        (some [⟨"a", "A", 1, 2, [(0, 1)]⟩, ⟨"b", "B", 1, 1, [(0, 2)]⟩])
        [("a", 130)] ["a", "z"]).2.2,
      k ∈ ([⟨"a", "A", 1, 2, [(0, 1)]⟩, ⟨"b", "B", 1, 1, [(0, 2)]⟩] :
          List IGroup).map (·.key)) := by
  have h := group_layout_state_invariant [("a", 130)] ["a", "z"]
  exact ⟨h.1, (h.2 [⟨"a", "A", 1, 2, [(0, 1)]⟩, ⟨"b", "B", 1, 1, [(0, 2)]⟩]).1 "a",
    (h.2 [⟨"a", "A", 1, 2, [(0, 1)]⟩, ⟨"b", "B", 1, 1, [(0, 2)]⟩]).2.2.2⟩

/-! ## C6: set_scene_order normalization -/

theorem scene_order_loop1 (existing : List String) (xs : List String) :
    ∀ acc : List String,
      xs.foldl (fun acc sid => if sid ∈ existing ∧ sid ∉ acc then acc ++ [sid] else acc) acc
        = (xs.filter fun sid => decide (sid ∈ existing)).foldl
            (fun acc sid => if sid ∈ acc then acc else acc ++ [sid]) acc := by
  induction xs with
  | nil => intro acc; rfl
  | cons x rest ih =>
    intro acc
    by_cases hx : x ∈ existing
    · by_cases ha : x ∈ acc <;>
        simp [hx, ha, ih]
    · simp [hx, ih]

theorem scene_order_loop2 :
    ∀ (es acc : List String), es.Nodup →
      es.foldl (fun acc sid => if sid ∈ acc then acc else acc ++ [sid]) acc
        = acc ++ es.filter (fun sid => decide (sid ∉ acc)) := by
  intro es
  induction es with
  | nil => intro acc _; simp
  | cons e rest ih =>
    intro acc hnd
    have he : e ∉ rest := (List.nodup_cons.1 hnd).1
    have hrest : rest.Nodup := (List.nodup_cons.1 hnd).2
    by_cases ha : e ∈ acc
    · rw [List.foldl_cons, if_pos ha, ih acc hrest]
      simp [List.filter_cons, ha]
    · rw [List.foldl_cons, if_neg ha, ih (acc ++ [e]) hrest]
      have hfilter : rest.filter (fun sid => decide (sid ∉ acc ++ [e]))
          = rest.filter (fun sid => decide (sid ∉ acc)) := by
        apply List.filter_congr
        intro a hmem
        have hane : a ≠ e := fun h => he (h ▸ hmem)
        simp [List.mem_append, hane]
      rw [hfilter]
      simp [List.filter_cons, ha]

/-- C6: set_scene_order returns a permutation of exactly the stored scene
ids; the requested ids that exist keep their first-occurrence order
(duplicates and unknown ids dropped) and the stored ids absent from the
request are appended in id-sorted order (the stored list is id-sorted, so
its filtered suffix is too). -/
theorem scene_order_normalization (existing xs : List String)
    (hnd : existing.Nodup) (hsorted : existing.Pairwise (· ≤ ·)) :
    setSceneOrder existing xs =
      keptFromRequest existing xs
        ++ existing.filter (fun sid => decide (sid ∉ keptFromRequest existing xs)) ∧
    (setSceneOrder existing xs).Perm existing ∧
    (existing.filter
      (fun sid => decide (sid ∉ keptFromRequest existing xs))).Pairwise (· ≤ ·) := by
  have h1 : setSceneOrder existing xs =
      keptFromRequest existing xs
        ++ existing.filter (fun sid => decide (sid ∉ keptFromRequest existing xs)) := by
    show existing.foldl _
        (xs.foldl (fun acc sid => if sid ∈ existing ∧ sid ∉ acc then acc ++ [sid] else acc) [])
      = _
    rw [scene_order_loop1 existing xs []]
    exact scene_order_loop2 existing _ hnd
  have knd : (keptFromRequest existing xs).Nodup := firstDedup_nodup _
  have ksub : ∀ a ∈ keptFromRequest existing xs, a ∈ existing := by
    intro a ha
    have := (firstDedup_mem _ a).1 ha
    simpa using (List.mem_filter.1 this).2
  have h2 : (keptFromRequest existing xs).Perm
      (existing.filter fun sid => decide (sid ∈ keptFromRequest existing xs)) := by
    refine (List.perm_ext_iff_of_nodup knd (hnd.filter _)).2 fun a => ?_
    simp only [List.mem_filter, decide_eq_true_eq]
    exact ⟨fun h => ⟨ksub a h, h⟩, fun h => h.2⟩
  have h3 : (setSceneOrder existing xs).Perm existing := by
    rw [h1]
    have hsplit := List.filter_append_perm
      (fun sid => decide (sid ∈ keptFromRequest existing xs)) existing
    have hnot : (fun sid => !decide (sid ∈ keptFromRequest existing xs))
        = fun sid => decide (sid ∉ keptFromRequest existing xs) := by
      funext sid; simp
    rw [hnot] at hsplit
    exact (h2.append_right _).trans hsplit
  exact ⟨h1, h3, List.Sorted.filter _ hsorted⟩

/-- Witness for C6 at a concrete sorted store and request list. -/
theorem scene_order_normalization_witness :
    setSceneOrder ["alpha", "beta", "gamma"] ["gamma", "zeta", "alpha", "gamma"] =
      keptFromRequest ["alpha", "beta", "gamma"] ["gamma", "zeta", "alpha", "gamma"]
        ++ (["alpha", "beta", "gamma"] : List String).filter
            (fun sid => decide (sid ∉
              keptFromRequest ["alpha", "beta", "gamma"] ["gamma", "zeta", "alpha", "gamma"])) ∧
    (setSceneOrder ["alpha", "beta", "gamma"]
        ["gamma", "zeta", "alpha", "gamma"]).Perm ["alpha", "beta", "gamma"] ∧
    ((["alpha", "beta", "gamma"] : List String).filter
      (fun sid => decide (sid ∉
        keptFromRequest ["alpha", "beta", "gamma"]
          ["gamma", "zeta", "alpha", "gamma"]))).Pairwise (· ≤ ·) :=
  scene_order_normalization ["alpha", "beta", "gamma"]
    ["gamma", "zeta", "alpha", "gamma"] (by decide)
    (by
      have hab : ("alpha" : String) ≤ "beta" := String.le_iff_toList_le.mpr (by decide)
      have hag : ("alpha" : String) ≤ "gamma" := String.le_iff_toList_le.mpr (by decide)
      have hbg : ("beta" : String) ≤ "gamma" := String.le_iff_toList_le.mpr (by decide)
      refine List.Pairwise.cons ?_ (List.Pairwise.cons ?_ (List.pairwise_singleton _ _))
      · intro b hb
        rcases List.mem_cons.1 hb with h | h
        · exact h ▸ hab
        · rcases List.mem_singleton.1 h with rfl
          exact hag
      · intro b hb
        rcases List.mem_singleton.1 hb with rfl
        exact hbg)

/-! ## C7: dimmer scaling is bounded and monotone -/

theorem pyRound100_mono {a a2 : Nat} (h : a ≤ a2) :
    pyRound a 100 ≤ pyRound a2 100 := by
  unfold pyRound
  dsimp only
  split_ifs <;> omega

theorem pyRound100_mul (v : Nat) : pyRound (v * 100) 100 = v := by
  unfold pyRound
  dsimp only
  split_ifs <;> omega

theorem scaleChannel_le_255 (value percent : Nat) :
    scaleChannel value percent ≤ 255 := by
  simp only [scaleChannel]
  omega

theorem scaleChannel_mono (value : Nat) {p p2 : Nat} (h : p ≤ p2) :
    scaleChannel value p ≤ scaleChannel value p2 := by
  have := pyRound100_mono (Nat.mul_le_mul_left value h)
  simp only [scaleChannel]
  omega

theorem scaleChannel_100 (value : Nat) (h : value ≤ 255) :
    scaleChannel value 100 = value := by
  simp only [scaleChannel, pyRound100_mul]
  omega

theorem lookup_mem {α β : Type} [BEq α] [LawfulBEq α] {m : List (α × β)}
    {k : α} {v : β} (h : List.lookup k m = some v) : (k, v) ∈ m := by
  induction m with
  | nil => simp [List.lookup] at h
  | cons e t ih =>
    rw [List.lookup] at h
    rcases heq : k == e.1 with _ | _
    · rw [heq] at h
      exact List.mem_cons_of_mem _ (ih h)
    · rw [heq] at h
      obtain rfl : e.2 = v := by simpa using h
      have : k = e.1 := by simpa using heq
      subst this
      exact List.mem_cons_self _ _

theorem pad512_le (dmx : Bytes) (h : ∀ v ∈ dmx, v ≤ 255) :
    ∀ v ∈ pad512 dmx, v ≤ 255 := by
  intro v hv
  rcases List.mem_append.1 hv with hv | hv
  · exact h v (List.mem_of_mem_take hv)
  · simpa using (List.eq_of_mem_replicate hv) ▸ Nat.zero_le 255

theorem set_le (vs : Bytes) (i x : Nat) (h : ∀ v ∈ vs, v ≤ 255) (hx : x ≤ 255) :
    ∀ v ∈ vs.set i x, v ≤ 255 := by
  intro v hv
  rcases List.mem_or_eq_of_mem_set hv with hv | rfl
  · exact h v hv
  · exact hx

theorem scaleIndices_le (idxs : List Nat) (percent : Nat) :
    ∀ values : Bytes, (∀ v ∈ values, v ≤ 255) →
      ∀ v ∈ scaleIndices values idxs percent, v ≤ 255 := by
  induction idxs with
  | nil => intro values h; exact h
  | cons i rest ih =>
    intro values h
    exact ih _ (set_le values i _ h (scaleChannel_le_255 _ _))

theorem applyScales_le (entries : List (Nat × Nat)) :
    ∀ values : Bytes, (∀ v ∈ values, v ≤ 255) →
      ∀ v ∈ applyScales values entries, v ≤ 255 := by
  induction entries with
  | nil => intro values h; exact h
  | cons e rest ih =>
    intro values h
    exact ih _ (set_le values e.1 _ h (scaleChannel_le_255 _ _))

theorem replaceU_le (m : UMap) (u : Nat) (w : Bytes)
    (hm : ∀ q ∈ m, ∀ v ∈ q.2, v ≤ 255) (hw : ∀ v ∈ w, v ≤ 255) :
    ∀ q ∈ replaceU m u w, ∀ v ∈ q.2, v ≤ 255 := by
  intro q hq
  simp only [replaceU, List.mem_map] at hq
  obtain ⟨q0, hq0, hq0eq⟩ := hq
  by_cases h : q0.1 = u
  · rw [if_pos h] at hq0eq
    exact hq0eq ▸ hw
  · rw [if_neg h] at hq0eq
    exact hq0eq ▸ hm q0 hq0

theorem foldl_preserve_le {β : Type} (g : UMap → β → UMap)
    (hg : ∀ m b, (∀ q ∈ m, ∀ v ∈ q.2, v ≤ 255) → ∀ q ∈ g m b, ∀ v ∈ q.2, v ≤ 255)
    (l : List β) :
    ∀ m, (∀ q ∈ m, ∀ v ∈ q.2, v ≤ 255) → ∀ q ∈ l.foldl g m, ∀ v ∈ q.2, v ≤ 255 := by
  induction l with
  | nil => intro m hm; exact hm
  | cons b rest ih => intro m hm; exact ih _ (hg m b hm)

theorem applyMasterDimmer_le (ia : Option (List (Nat × Nat))) (payload : UMap)
    (percent : Nat) (h : ∀ q ∈ payload, ∀ v ∈ q.2, v ≤ 255) :
    ∀ q ∈ (applyMasterDimmer ia payload percent).1, ∀ v ∈ q.2, v ≤ 255 := by
  unfold applyMasterDimmer
  dsimp only
  split
  · exact h
  · cases ia with
    | none =>
      dsimp only
      intro q hq
      simp only [List.mem_map] at hq
      obtain ⟨q0, _, rfl⟩ := hq
      intro v hv
      simp only [List.mem_map] at hv
      obtain ⟨v0, _, rfl⟩ := hv
      exact scaleChannel_le_255 _ _
    | some addrs =>
      dsimp only
      refine foldl_preserve_le _ ?_ _ payload h
      intro m b hm q hq
      revert q hq
      cases hfind : List.lookup b.1 m with
      | none => simpa [hfind] using hm
      | some dmx =>
        simp only [hfind]
        exact replaceU_le m b.1 _ hm
          (scaleIndices_le _ _ _ (pad512_le dmx (hm _ (lookup_mem hfind))))

theorem applyGroupDimmers_le (layout : Option (List Group)) (payload : UMap)
    (h : ∀ q ∈ payload, ∀ v ∈ q.2, v ≤ 255) :
    ∀ q ∈ applyGroupDimmers layout payload, ∀ v ∈ q.2, v ≤ 255 := by
  unfold applyGroupDimmers
  cases layout with
  | none => exact h
  | some groups =>
    dsimp only
    split
    · exact h
    · refine foldl_preserve_le _ ?_ _ payload h
      intro m b hm q hq
      revert q hq
      cases hfind : List.lookup b.1 m with
      | none => simpa [hfind] using hm
      | some dmx =>
        simp only [hfind]
        exact replaceU_le m b.1 _ hm
          (applyScales_le _ _ (pad512_le dmx (hm _ (lookup_mem hfind))))

/-- C7: every channel value produced by applying the master dimmer followed
by the group dimmers lies in 0..=255 (the lower bound is inherent in the
Nat embedding), and the shared per-channel scaling function is monotone
non-decreasing in the applied percent — so lowering any applicable percent
never raises a channel's output. -/
theorem dimmer_bounded_and_monotone :
    (∀ (ia : Option (List (Nat × Nat))) (percent : Nat)
        (layout : Option (List Group)) (payload : UMap),
      (∀ q ∈ payload, ∀ v ∈ q.2, v ≤ 255) →
      ∀ q ∈ applyGroupDimmers layout (applyMasterDimmer ia payload percent).1,
        ∀ v ∈ q.2, v ≤ 255) ∧
    (∀ value p p2 : Nat, p ≤ p2 → scaleChannel value p ≤ scaleChannel value p2) := by
  refine ⟨fun ia percent layout payload h => ?_, fun value p p2 h => scaleChannel_mono value h⟩
  exact applyGroupDimmers_le layout _ (applyMasterDimmer_le ia payload percent h)

set_option maxRecDepth 4096 in
/-- Witness for C7 at a concrete payload, master percent and layout. -/
theorem dimmer_bounded_and_monotone_witness :
    (∀ q ∈ applyGroupDimmers (some [exampleG1])
        (applyMasterDimmer none exampleBase 50).1, ∀ v ∈ q.2, v ≤ 255) ∧
    scaleChannel 200 30 ≤ scaleChannel 200 60 :=
  ⟨dimmer_bounded_and_monotone.1 none 50 (some [exampleG1]) exampleBase
      (by decide),
    dimmer_bounded_and_monotone.2 200 30 60 (by decide)⟩

/-! ## C5: group dimmer minimum rule -/

theorem lookup_isSome_iff {α β : Type} [BEq α] [LawfulBEq α]
    (m : List (α × β)) (k : α) :
    (List.lookup k m).isSome = true ↔ k ∈ m.map Prod.fst := by
  induction m with
  | nil => simp [List.lookup]
  | cons e t ih =>
    rw [List.lookup]
    by_cases hk : k = e.1
    · have hbeq : (k == e.1) = true := by rw [hk]; exact beq_self_eq_true e.1
      rw [hbeq]
      simp [hk]
    · have hbeq : (k == e.1) = false := beq_false_of_ne hk
      rw [hbeq]
      simp [ih, hk]

theorem lookup_eq_none_iff {α β : Type} [BEq α] [LawfulBEq α]
    (m : List (α × β)) (k : α) :
    List.lookup k m = none ↔ k ∉ m.map Prod.fst := by
  rw [← lookup_isSome_iff]
  cases List.lookup k m <;> simp

theorem lookup_cons_self {α β : Type} [BEq α] [LawfulBEq α]
    (k : α) (v : β) (t : List (α × β)) :
    List.lookup k ((k, v) :: t) = some v := by
  rw [List.lookup]
  have hbeq : (k == k) = true := beq_self_eq_true k
  rw [hbeq]

theorem lookup_cons_ne {α β : Type} [BEq α] [LawfulBEq α]
    (k k2 : α) (v : β) (t : List (α × β)) (h : k2 ≠ k) :
    List.lookup k2 ((k, v) :: t) = List.lookup k2 t := by
  rw [List.lookup]
  have hbeq : (k2 == k) = false := beq_false_of_ne h
  rw [hbeq]

theorem lookup_append_single_self {α β : Type} [BEq α] [LawfulBEq α]
    (m : List (α × β)) (k : α) (v : β) (h : List.lookup k m = none) :
    List.lookup k (m ++ [(k, v)]) = some v := by
  induction m with
  | nil => exact lookup_cons_self k v []
  | cons e t ih =>
    by_cases hk : k = e.1
    · subst hk
      rw [List.lookup] at h
      have hbeq : (e.1 == e.1) = true := beq_self_eq_true e.1
      rw [hbeq] at h
      exact absurd h (by simp)
    · have hbeq : (k == e.1) = false := beq_false_of_ne hk
      rw [List.lookup] at h
      rw [hbeq] at h
      rw [List.cons_append, List.lookup, hbeq]
      exact ih h

theorem lookup_append_single_ne {α β : Type} [BEq α] [LawfulBEq α]
    (m : List (α × β)) (k k2 : α) (v : β) (h : k2 ≠ k) :
    List.lookup k2 (m ++ [(k, v)]) = List.lookup k2 m := by
  induction m with
  | nil =>
    simp only [List.nil_append]
    rw [lookup_cons_ne _ _ _ _ h]
  | cons e t ih =>
    rw [List.cons_append, List.lookup, List.lookup]
    cases k2 == e.1 <;> simp [ih]

theorem replacePC_lookup_self (m : List ((Nat × Nat) × Nat)) (k : Nat × Nat)
    (v : Nat) (h : k ∈ m.map Prod.fst) :
    List.lookup k (m.map fun q => if q.1 = k then (k, v) else q) = some v := by
  induction m with
  | nil => simp at h
  | cons e t ih =>
    by_cases he : e.1 = k
    · simp only [List.map_cons, if_pos he]
      exact lookup_cons_self k v _
    · simp only [List.map_cons, if_neg he]
      rw [lookup_cons_ne _ _ _ _ (fun hh => he hh.symm)]
      apply ih
      rw [List.map_cons] at h
      rcases List.mem_cons.1 h with hk | hk
      · exact absurd hk.symm he
      · exact hk

theorem replacePC_lookup_ne (m : List ((Nat × Nat) × Nat)) (k k2 : Nat × Nat)
    (v : Nat) (h : k2 ≠ k) :
    List.lookup k2 (m.map fun q => if q.1 = k then (k, v) else q) =
      List.lookup k2 m := by
  induction m with
  | nil => rfl
  | cons e t ih =>
    by_cases he : e.1 = k
    · simp only [List.map_cons, if_pos he]
      rw [lookup_cons_ne _ _ _ _ h, ih]
      have hne : k2 ≠ e.1 := by rw [he]; exact h
      have hbeq : (k2 == e.1) = false := beq_false_of_ne hne
      rw [List.lookup, hbeq]
    · simp only [List.map_cons, if_neg he]
      rw [List.lookup, List.lookup]
      cases k2 == e.1 <;> simp [ih]

theorem storePC_lookup_self (m : List ((Nat × Nat) × Nat)) (k : Nat × Nat)
    (v : Nat) : List.lookup k (storePC m k v) = some v := by
  unfold storePC
  by_cases h : (List.lookup k m).isSome = true
  · rw [if_pos h]
    exact replacePC_lookup_self m k v ((lookup_isSome_iff m k).1 h)
  · rw [if_neg h]
    refine lookup_append_single_self m k v ?_
    cases hl : List.lookup k m
    · rfl
    · exact absurd (by simp [hl]) h

theorem storePC_lookup_ne (m : List ((Nat × Nat) × Nat)) (k k2 : Nat × Nat)
    (v : Nat) (h : k2 ≠ k) :
    List.lookup k2 (storePC m k v) = List.lookup k2 m := by
  unfold storePC
  split
  · exact replacePC_lookup_ne m k k2 v h
  · exact lookup_append_single_ne m k k2 v h

theorem storePC_values_lt (m : List ((Nat × Nat) × Nat)) (k : Nat × Nat)
    (v : Nat) (hv : v < 100) (hm : ∀ e ∈ m, e.2 < 100) :
    ∀ e ∈ storePC m k v, e.2 < 100 := by
  unfold storePC
  split
  · intro e he
    simp only [List.mem_map] at he
    obtain ⟨q, hq, hqe⟩ := he
    by_cases h : q.1 = k
    · rw [if_pos h] at hqe
      exact hqe ▸ hv
    · rw [if_neg h] at hqe
      exact hqe ▸ hm q hq
  · intro e he
    rcases List.mem_append.1 he with he | he
    · exact hm e he
    · simp only [List.mem_singleton] at he
      exact he ▸ hv

theorem storePC_keybound (m : List ((Nat × Nat) × Nat)) (k : Nat × Nat)
    (v : Nat) (hk : k.2 < 512) (hm : ∀ e ∈ m, e.1.2 < 512) :
    ∀ e ∈ storePC m k v, e.1.2 < 512 := by
  unfold storePC
  split
  · intro e he
    simp only [List.mem_map] at he
    obtain ⟨q, hq, hqe⟩ := he
    by_cases h : q.1 = k
    · rw [if_pos h] at hqe
      exact hqe ▸ hk
    · rw [if_neg h] at hqe
      exact hqe ▸ hm q hq
  · intro e he
    rcases List.mem_append.1 he with he | he
    · exact hm e he
    · simp only [List.mem_singleton] at he
      exact he ▸ hk

theorem storePC_keys (m : List ((Nat × Nat) × Nat)) (k : Nat × Nat) (v : Nat) :
    (storePC m k v).map Prod.fst =
      if (List.lookup k m).isSome then m.map Prod.fst
      else m.map Prod.fst ++ [k] := by
  unfold storePC
  split
  · rw [List.map_map]
    refine List.map_congr_left fun q _ => ?_
    by_cases h : q.1 = k
    · simp [h]
    · simp [h]
  · simp

theorem storePC_keys_nodup (m : List ((Nat × Nat) × Nat)) (k : Nat × Nat)
    (v : Nat) (h : (m.map Prod.fst).Nodup) :
    ((storePC m k v).map Prod.fst).Nodup := by
  rw [storePC_keys]
  split
  · exact h
  · next hns =>
    have hk : k ∉ m.map Prod.fst := by
      rw [← lookup_isSome_iff]
      simpa using hns
    simp [List.nodup_append, h, hk]

theorem inner_fold_lookup (p : Nat) (addrs : List (Nat × Nat)) :
    ∀ (m : List ((Nat × Nat) × Nat)) (k1 k2 : Nat),
      (List.lookup (k1, k2) (addrs.foldl
          (fun m2 a =>
            if a.2 < 1 ∨ 512 < a.2 then m2
            else storePC m2 (a.1, a.2 - 1)
              (min ((List.lookup (a.1, a.2 - 1) m2).getD 100) p)) m)).getD 100
        = if (k1, k2 + 1) ∈ addrs ∧ k2 < 512 then
            min ((List.lookup (k1, k2) m).getD 100) p
          else (List.lookup (k1, k2) m).getD 100 := by
  induction addrs with
  | nil => intro m k1 k2; simp
  | cons a rest ih =>
    intro m k1 k2
    rw [List.foldl_cons]
    by_cases hskip : a.2 < 1 ∨ 512 < a.2
    · rw [if_pos hskip, ih]
      by_cases hc : (k1, k2 + 1) ∈ rest ∧ k2 < 512
      · rw [if_pos hc, if_pos ⟨List.mem_cons_of_mem _ hc.1, hc.2⟩]
      · rw [if_neg hc]
        have hcc : ¬((k1, k2 + 1) ∈ a :: rest ∧ k2 < 512) := by
          rintro ⟨hmem, hk⟩
          rcases List.mem_cons.1 hmem with heq | hmem2
          · rw [← heq] at hskip
            simp only [] at hskip
            omega
          · exact hc ⟨hmem2, hk⟩
        rw [if_neg hcc]
    · rw [if_neg hskip]
      have ha : 1 ≤ a.2 ∧ a.2 ≤ 512 := by omega
      by_cases hk0 : (k1, k2) = (a.1, a.2 - 1)
      · have hk1 : k1 = a.1 := (Prod.mk.injEq .. ▸ hk0).1
        have hk2 : k2 = a.2 - 1 := (Prod.mk.injEq .. ▸ hk0).2
        rw [ih]
        rw [hk0, storePC_lookup_self]
        have hmema : (k1, k2 + 1) = a := by
          rcases a with ⟨a1, a2⟩
          simp only at hk1 hk2 ha
          simp only [Prod.mk.injEq]
          exact ⟨hk1, by omega⟩
        have hcond : (k1, k2 + 1) ∈ a :: rest ∧ k2 < 512 :=
          ⟨hmema ▸ List.mem_cons_self a rest, by omega⟩
        rw [if_pos hcond]
        simp only [Option.getD_some]
        by_cases hc : (k1, k2 + 1) ∈ rest ∧ k2 < 512
        · rw [if_pos hc]; omega
        · rw [if_neg hc]
      · rw [ih, storePC_lookup_ne _ _ _ _ hk0]
        have hcond : ((k1, k2 + 1) ∈ a :: rest ∧ k2 < 512) ↔
            ((k1, k2 + 1) ∈ rest ∧ k2 < 512) := by
          constructor
          · rintro ⟨hmem, hk⟩
            rcases List.mem_cons.1 hmem with heq | hmem2
            · exfalso
              apply hk0
              rcases a with ⟨a1, a2⟩
              have h1 : k1 = a1 := (Prod.mk.injEq .. ▸ heq).1
              have h2 : k2 + 1 = a2 := (Prod.mk.injEq .. ▸ heq).2
              simp only [Prod.mk.injEq]
              exact ⟨h1, by omega⟩
            · exact ⟨hmem2, hk⟩
          · rintro ⟨hmem, hk⟩
            exact ⟨List.mem_cons_of_mem _ hmem, hk⟩
        by_cases hc : (k1, k2 + 1) ∈ rest ∧ k2 < 512
        · rw [if_pos hc, if_pos (hcond.2 hc)]
        · rw [if_neg hc, if_neg (fun hh => hc (hcond.1 hh))]

theorem inner_fold_values_lt (p : Nat) (hp : p < 100) (addrs : List (Nat × Nat)) :
    ∀ m : List ((Nat × Nat) × Nat), (∀ e ∈ m, e.2 < 100) →
      ∀ e ∈ addrs.foldl
          (fun m2 a =>
            if a.2 < 1 ∨ 512 < a.2 then m2
            else storePC m2 (a.1, a.2 - 1)
              (min ((List.lookup (a.1, a.2 - 1) m2).getD 100) p)) m, e.2 < 100 := by
  induction addrs with
  | nil => intro m hm; exact hm
  | cons a rest ih =>
    intro m hm
    rw [List.foldl_cons]
    by_cases hskip : a.2 < 1 ∨ 512 < a.2
    · rw [if_pos hskip]; exact ih m hm
    · rw [if_neg hskip]
      exact ih _ (storePC_values_lt _ _ _ (by omega) hm)

theorem inner_fold_keybound (p : Nat) (addrs : List (Nat × Nat)) :
    ∀ m : List ((Nat × Nat) × Nat), (∀ e ∈ m, e.1.2 < 512) →
      ∀ e ∈ addrs.foldl
          (fun m2 a =>
            if a.2 < 1 ∨ 512 < a.2 then m2
            else storePC m2 (a.1, a.2 - 1)
              (min ((List.lookup (a.1, a.2 - 1) m2).getD 100) p)) m, e.1.2 < 512 := by
  induction addrs with
  | nil => intro m hm; exact hm
  | cons a rest ih =>
    intro m hm
    rw [List.foldl_cons]
    by_cases hskip : a.2 < 1 ∨ 512 < a.2
    · rw [if_pos hskip]; exact ih m hm
    · rw [if_neg hskip]
      exact ih _ (storePC_keybound _ _ _ (by simp only []; omega) hm)

theorem inner_fold_keys_nodup (p : Nat) (addrs : List (Nat × Nat)) :
    ∀ m : List ((Nat × Nat) × Nat), (m.map Prod.fst).Nodup →
      ((addrs.foldl
          (fun m2 a =>
            if a.2 < 1 ∨ 512 < a.2 then m2
            else storePC m2 (a.1, a.2 - 1)
              (min ((List.lookup (a.1, a.2 - 1) m2).getD 100) p)) m).map Prod.fst).Nodup := by
  induction addrs with
  | nil => intro m hm; exact hm
  | cons a rest ih =>
    intro m hm
    rw [List.foldl_cons]
    by_cases hskip : a.2 < 1 ∨ 512 < a.2
    · rw [if_pos hskip]; exact ih m hm
    · rw [if_neg hskip]
      exact ih _ (storePC_keys_nodup _ _ _ hm)

theorem specAux_min (k1 k2 : Nat) (rest : List Group) :
    ∀ a b : Nat,
      rest.foldl (fun acc g =>
          if (k1, k2 + 1) ∈ g.addresses ∧ k2 < 512 then
            min acc (if g.muted then 0 else max 0 (min 100 g.value_percent))
          else acc) (min a b)
        = min a (rest.foldl (fun acc g =>
            if (k1, k2 + 1) ∈ g.addresses ∧ k2 < 512 then
              min acc (if g.muted then 0 else max 0 (min 100 g.value_percent))
            else acc) b) := by
  induction rest with
  | nil => intro a b; simp
  | cons g rest ih =>
    intro a b
    rw [List.foldl_cons, List.foldl_cons]
    by_cases hc : (k1, k2 + 1) ∈ g.addresses ∧ k2 < 512
    · rw [if_pos hc, if_pos hc, Nat.min_assoc]
      exact ih a _
    · rw [if_neg hc, if_neg hc]
      exact ih a b

theorem specAux_le (k1 k2 : Nat) (l : List Group) :
    ∀ b : Nat,
      l.foldl (fun acc g =>
          if (k1, k2 + 1) ∈ g.addresses ∧ k2 < 512 then
            min acc (if g.muted then 0 else max 0 (min 100 g.value_percent))
          else acc) b ≤ b := by
  induction l with
  | nil => intro b; exact Nat.le_refl b
  | cons g rest ih =>
    intro b
    rw [List.foldl_cons]
    by_cases hc : (k1, k2 + 1) ∈ g.addresses ∧ k2 < 512
    · rw [if_pos hc]
      exact Nat.le_trans (ih _) (Nat.min_le_left _ _)
    · rw [if_neg hc]
      exact ih b

theorem perChannel_fold_lookup (layout : List Group) :
    ∀ (m : List ((Nat × Nat) × Nat)), (∀ e ∈ m, e.2 < 100) →
      ∀ k1 k2 : Nat,
      (List.lookup (k1, k2) (layout.foldl
          (fun m g =>
            let percent := if g.muted then 0 else max 0 (min 100 g.value_percent)
            if 100 ≤ percent then m
            else g.addresses.foldl
              (fun m2 a =>
                if a.2 < 1 ∨ 512 < a.2 then m2
                else storePC m2 (a.1, a.2 - 1)
                  (min ((List.lookup (a.1, a.2 - 1) m2).getD 100) percent)) m) m)).getD 100
        = min ((List.lookup (k1, k2) m).getD 100)
            (layout.foldl (fun acc g =>
              if (k1, k2 + 1) ∈ g.addresses ∧ k2 < 512 then
                min acc (if g.muted then 0 else max 0 (min 100 g.value_percent))
              else acc) 100) := by
  induction layout with
  | nil =>
    intro m hm k1 k2
    simp only [List.foldl_nil]
    cases hl : List.lookup (k1, k2) m with
    | none => simp
    | some v =>
      have := hm _ (lookup_mem hl)
      simp only [Option.getD_some]
      omega
  | cons g rest ih =>
    intro m hm k1 k2
    rw [List.foldl_cons, List.foldl_cons]
    dsimp only
    by_cases hstop : 100 ≤ (if g.muted then 0 else max 0 (min 100 g.value_percent))
    · rw [if_pos hstop, ih m hm k1 k2]
      have hstep : (if (k1, k2 + 1) ∈ g.addresses ∧ k2 < 512 then
          min 100 (if g.muted then 0 else max 0 (min 100 g.value_percent))
          else 100) = 100 := by
        by_cases hc : (k1, k2 + 1) ∈ g.addresses ∧ k2 < 512
        · rw [if_pos hc]; omega
        · rw [if_neg hc]
      rw [hstep]
    · rw [if_neg hstop]
      have hp : (if g.muted then 0 else max 0 (min 100 g.value_percent)) < 100 := by
        omega
      have hm2 : ∀ e ∈ g.addresses.foldl
          (fun m2 a =>
            if a.2 < 1 ∨ 512 < a.2 then m2
            else storePC m2 (a.1, a.2 - 1)
              (min ((List.lookup (a.1, a.2 - 1) m2).getD 100)
                (if g.muted then 0 else max 0 (min 100 g.value_percent)))) m, e.2 < 100 :=
        inner_fold_values_lt _ hp g.addresses m hm
      rw [ih _ hm2 k1 k2, inner_fold_lookup]
      by_cases hc : (k1, k2 + 1) ∈ g.addresses ∧ k2 < 512
      · rw [if_pos hc, if_pos hc]
        have hminp : min 100 (if g.muted then 0 else max 0 (min 100 g.value_percent))
            = (if g.muted then 0 else max 0 (min 100 g.value_percent)) := by omega
        rw [hminp]
        have hsplit : (if g.muted then 0 else max 0 (min 100 g.value_percent))
            = min (if g.muted then 0 else max 0 (min 100 g.value_percent)) 100 := by omega
        rw [hsplit, specAux_min, ← hsplit, Nat.min_assoc]
      · rw [if_neg hc, if_neg hc]

theorem perChannel_lookup (layout : List Group) (k1 k2 : Nat) :
    (List.lookup (k1, k2) (perChannelPercent layout)).getD 100
      = layout.foldl (fun acc g =>
          if (k1, k2 + 1) ∈ g.addresses ∧ k2 < 512 then
            min acc (if g.muted then 0 else max 0 (min 100 g.value_percent))
          else acc) 100 := by
  have h := perChannel_fold_lookup layout [] (by simp) k1 k2
  unfold perChannelPercent
  rw [h]
  simp only [List.lookup, Option.getD_none]
  have := specAux_le k1 k2 layout 100
  omega

theorem perChannel_values_lt (layout : List Group) :
    ∀ e ∈ perChannelPercent layout, e.2 < 100 := by
  unfold perChannelPercent
  suffices h : ∀ m : List ((Nat × Nat) × Nat), (∀ e ∈ m, e.2 < 100) →
      ∀ e ∈ layout.foldl
        (fun m g =>
          let percent := if g.muted then 0 else max 0 (min 100 g.value_percent)
          if 100 ≤ percent then m
          else g.addresses.foldl
            (fun m2 a =>
              if a.2 < 1 ∨ 512 < a.2 then m2
              else storePC m2 (a.1, a.2 - 1)
                (min ((List.lookup (a.1, a.2 - 1) m2).getD 100) percent)) m) m,
        e.2 < 100 by
    exact h [] (by simp)
  induction layout with
  | nil => intro m hm; exact hm
  | cons g rest ih =>
    intro m hm
    rw [List.foldl_cons]
    dsimp only
    by_cases hstop : 100 ≤ (if g.muted then 0 else max 0 (min 100 g.value_percent))
    · rw [if_pos hstop]; exact ih m hm
    · rw [if_neg hstop]
      exact ih _ (inner_fold_values_lt _ (by omega) g.addresses m hm)

theorem perChannel_keybound (layout : List Group) :
    ∀ e ∈ perChannelPercent layout, e.1.2 < 512 := by
  unfold perChannelPercent
  suffices h : ∀ m : List ((Nat × Nat) × Nat), (∀ e ∈ m, e.1.2 < 512) →
      ∀ e ∈ layout.foldl
        (fun m g =>
          let percent := if g.muted then 0 else max 0 (min 100 g.value_percent)
          if 100 ≤ percent then m
          else g.addresses.foldl
            (fun m2 a =>
              if a.2 < 1 ∨ 512 < a.2 then m2
              else storePC m2 (a.1, a.2 - 1)
                (min ((List.lookup (a.1, a.2 - 1) m2).getD 100) percent)) m) m,
        e.1.2 < 512 by
    exact h [] (by simp)
  induction layout with
  | nil => intro m hm; exact hm
  | cons g rest ih =>
    intro m hm
    rw [List.foldl_cons]
    dsimp only
    by_cases hstop : 100 ≤ (if g.muted then 0 else max 0 (min 100 g.value_percent))
    · rw [if_pos hstop]; exact ih m hm
    · rw [if_neg hstop]
      exact ih _ (inner_fold_keybound _ g.addresses m hm)

theorem perChannel_keys_nodup (layout : List Group) :
    ((perChannelPercent layout).map Prod.fst).Nodup := by
  unfold perChannelPercent
  suffices h : ∀ m : List ((Nat × Nat) × Nat), (m.map Prod.fst).Nodup →
      ((layout.foldl
        (fun m g =>
          let percent := if g.muted then 0 else max 0 (min 100 g.value_percent)
          if 100 ≤ percent then m
          else g.addresses.foldl
            (fun m2 a =>
              if a.2 < 1 ∨ 512 < a.2 then m2
              else storePC m2 (a.1, a.2 - 1)
                (min ((List.lookup (a.1, a.2 - 1) m2).getD 100) percent)) m) m).map
        Prod.fst).Nodup by
    exact h [] (by simp)
  induction layout with
  | nil => intro m hm; exact hm
  | cons g rest ih =>
    intro m hm
    rw [List.foldl_cons]
    dsimp only
    by_cases hstop : 100 ≤ (if g.muted then 0 else max 0 (min 100 g.value_percent))
    · rw [if_pos hstop]; exact ih m hm
    · rw [if_neg hstop]
      exact ih _ (inner_fold_keys_nodup _ g.addresses m hm)

theorem codeMin_eq_specMin (layout : List Group) (u i : Nat) (hi : i < 512)
    (hv : ∀ g ∈ layout, g.value_percent ≤ 100) :
    layout.foldl (fun acc g =>
        if (u, i + 1) ∈ g.addresses ∧ i < 512 then
          min acc (if g.muted then 0 else max 0 (min 100 g.value_percent))
        else acc) 100
      = specMinPercent layout u i := by
  unfold specMinPercent
  suffices h : ∀ (l : List Group), (∀ g ∈ l, g.value_percent ≤ 100) → ∀ b : Nat,
      l.foldl (fun acc g =>
        if (u, i + 1) ∈ g.addresses ∧ i < 512 then
          min acc (if g.muted then 0 else max 0 (min 100 g.value_percent))
        else acc) b
      = l.foldl (fun acc g =>
        if (u, i + 1) ∈ g.addresses then
          min acc (if g.muted then 0 else g.value_percent)
        else acc) b by
    exact h layout hv 100
  intro l hl
  induction l with
  | nil => intro b; rfl
  | cons g rest ih =>
    intro b
    rw [List.foldl_cons, List.foldl_cons]
    have hg : g.value_percent ≤ 100 := hl g (List.mem_cons_self g rest)
    have hstep : (if (u, i + 1) ∈ g.addresses ∧ i < 512 then
        min b (if g.muted then 0 else max 0 (min 100 g.value_percent)) else b)
        = (if (u, i + 1) ∈ g.addresses then
            min b (if g.muted then 0 else g.value_percent) else b) := by
      have heff : (if g.muted then 0 else max 0 (min 100 g.value_percent))
          = (if g.muted then 0 else g.value_percent) := by
        by_cases hmu : g.muted
        · simp [hmu]
        · simp only [if_neg hmu]
          omega
      by_cases hc : (u, i + 1) ∈ g.addresses
      · rw [if_pos ⟨hc, hi⟩, if_pos hc, heff]
      · rw [if_neg (fun hh => hc hh.1), if_neg hc]
    rw [hstep]
    exact ih (fun g2 hg2 => hl g2 (List.mem_cons_of_mem _ hg2)) _

theorem bucketAppend_lookup_self (m : List (Nat × List (Nat × Nat))) (u : Nat)
    (x : Nat × Nat) (b : List (Nat × Nat)) (h : List.lookup u m = some b) :
    List.lookup u (m.map fun q => if q.1 = u then (q.1, q.2 ++ [x]) else q) =
      some (b ++ [x]) := by
  induction m with
  | nil => simp [List.lookup] at h
  | cons e t ih =>
    obtain ⟨e1, e2⟩ := e
    by_cases he : e1 = u
    · subst he
      rw [lookup_cons_self] at h
      obtain rfl : e2 = b := by simpa using h
      simp only [List.map_cons, if_pos rfl]
      exact lookup_cons_self e1 (e2 ++ [x]) _
    · have hne : u ≠ e1 := fun hh => he hh.symm
      rw [lookup_cons_ne _ _ _ _ hne] at h
      simp only [List.map_cons, if_neg he]
      rw [lookup_cons_ne _ _ _ _ hne]
      exact ih h

theorem bucketAppend_lookup_ne (m : List (Nat × List (Nat × Nat))) (u u2 : Nat)
    (x : Nat × Nat) (h : u2 ≠ u) :
    List.lookup u2 (m.map fun q => if q.1 = u then (q.1, q.2 ++ [x]) else q) =
      List.lookup u2 m := by
  induction m with
  | nil => rfl
  | cons e t ih =>
    obtain ⟨e1, e2⟩ := e
    by_cases he : e1 = u
    · subst he
      have hhead : (if ((e1, e2) : Nat × List (Nat × Nat)).1 = e1 then
          ((e1, e2).1, (e1, e2).2 ++ [x]) else (e1, e2)) = (e1, e2 ++ [x]) :=
        if_pos rfl
      rw [List.map_cons, hhead]
      have hne : u2 ≠ e1 := h
      rw [lookup_cons_ne _ _ _ _ hne, lookup_cons_ne _ _ _ _ hne]
      exact ih
    · simp only [List.map_cons, if_neg he]
      by_cases hu2 : u2 = e1
      · subst hu2
        rw [lookup_cons_self, lookup_cons_self]
      · rw [lookup_cons_ne _ _ _ _ hu2, lookup_cons_ne _ _ _ _ hu2]
        exact ih

theorem byUniverse_fold_some (pcs : List ((Nat × Nat) × Nat)) :
    ∀ (m : List (Nat × List (Nat × Nat))) (u : Nat) (b : List (Nat × Nat)),
      List.lookup u m = some b →
      List.lookup u (pcs.foldl
          (fun m e =>
            if (List.lookup e.1.1 m).isSome then
              m.map fun q => if q.1 = e.1.1 then (q.1, q.2 ++ [(e.1.2, e.2)]) else q
            else m ++ [(e.1.1, [(e.1.2, e.2)])]) m)
        = some (b ++ pcs.filterMap
            (fun e => if e.1.1 = u then some (e.1.2, e.2) else none)) := by
  induction pcs with
  | nil => intro m u b h; simpa using h
  | cons e rest ih =>
    intro m u b h
    rw [List.foldl_cons]
    by_cases he : e.1.1 = u
    · have hsome : (List.lookup e.1.1 m).isSome = true := by
        rw [he]; simp [h]
      rw [if_pos hsome]
      have hstep : List.lookup u
          (m.map fun q => if q.1 = e.1.1 then (q.1, q.2 ++ [(e.1.2, e.2)]) else q)
          = some (b ++ [(e.1.2, e.2)]) := by
        rw [he]
        exact bucketAppend_lookup_self m u (e.1.2, e.2) b h
      rw [ih _ u (b ++ [(e.1.2, e.2)]) hstep]
      have hfe : (if e.1.1 = u then some (e.1.2, e.2) else none) =
          some (e.1.2, e.2) := if_pos he
      simp [List.filterMap_cons, hfe]
    · have hfe : (if e.1.1 = u then some (e.1.2, e.2) else none) = none := if_neg he
      have hne : u ≠ e.1.1 := fun hh => he hh.symm
      simp only [List.filterMap_cons, hfe]
      split
      · refine ih _ u b ?_
        rw [bucketAppend_lookup_ne m e.1.1 u (e.1.2, e.2) hne]
        exact h
      · refine ih _ u b ?_
        rw [lookup_append_single_ne m e.1.1 u _ hne]
        exact h

theorem byUniverse_fold_none (pcs : List ((Nat × Nat) × Nat)) :
    ∀ (m : List (Nat × List (Nat × Nat))) (u : Nat),
      List.lookup u m = none →
      List.lookup u (pcs.foldl
          (fun m e =>
            if (List.lookup e.1.1 m).isSome then
              m.map fun q => if q.1 = e.1.1 then (q.1, q.2 ++ [(e.1.2, e.2)]) else q
            else m ++ [(e.1.1, [(e.1.2, e.2)])]) m)
        = (if (pcs.filterMap
              (fun e => if e.1.1 = u then some (e.1.2, e.2) else none)).isEmpty then
            none
          else some (pcs.filterMap
              (fun e => if e.1.1 = u then some (e.1.2, e.2) else none))) := by
  induction pcs with
  | nil => intro m u h; simpa using h
  | cons e rest ih =>
    intro m u h
    rw [List.foldl_cons]
    by_cases he : e.1.1 = u
    · have hnone : (List.lookup e.1.1 m).isSome = false := by
        rw [he]; simp [h]
      rw [if_neg (by simp [hnone])]
      have hstep : List.lookup u (m ++ [(e.1.1, [(e.1.2, e.2)])]) =
          some [(e.1.2, e.2)] := by
        rw [he]
        exact lookup_append_single_self m u _ h
      rw [byUniverse_fold_some rest _ u [(e.1.2, e.2)] hstep]
      have hfe : (if e.1.1 = u then some (e.1.2, e.2) else none) =
          some (e.1.2, e.2) := if_pos he
      simp [List.filterMap_cons, hfe]
    · have hfe : (if e.1.1 = u then some (e.1.2, e.2) else none) = none := if_neg he
      have hne : u ≠ e.1.1 := fun hh => he hh.symm
      simp only [List.filterMap_cons, hfe]
      split
      · refine ih _ u ?_
        rw [bucketAppend_lookup_ne m e.1.1 u (e.1.2, e.2) hne]
        exact h
      · refine ih _ u ?_
        rw [lookup_append_single_ne m e.1.1 u _ hne]
        exact h

theorem byUniverse_keys_nodup (pcs : List ((Nat × Nat) × Nat)) :
    ∀ m : List (Nat × List (Nat × Nat)), (m.map Prod.fst).Nodup →
      ((pcs.foldl
          (fun m e =>
            if (List.lookup e.1.1 m).isSome then
              m.map fun q => if q.1 = e.1.1 then (q.1, q.2 ++ [(e.1.2, e.2)]) else q
            else m ++ [(e.1.1, [(e.1.2, e.2)])]) m).map Prod.fst).Nodup := by
  induction pcs with
  | nil => intro m hm; exact hm
  | cons e rest ih =>
    intro m hm
    rw [List.foldl_cons]
    split
    · refine ih _ ?_
      rw [List.map_map]
      have : (Prod.fst ∘ fun q : Nat × List (Nat × Nat) =>
          if q.1 = e.1.1 then (q.1, q.2 ++ [(e.1.2, e.2)]) else q) = Prod.fst := by
        funext q
        by_cases hq : q.1 = e.1.1 <;> simp [hq]
      rw [this]
      exact hm
    · next hns =>
      refine ih _ ?_
      have hk : e.1.1 ∉ m.map Prod.fst := by
        rw [← lookup_isSome_iff]
        simpa using hns
      simp [List.nodup_append, hm, hk]

theorem filtered_lookup (pcs : List ((Nat × Nat) × Nat)) (u j : Nat) :
    List.lookup j (pcs.filterMap
        (fun e => if e.1.1 = u then some (e.1.2, e.2) else none))
      = List.lookup (u, j) pcs := by
  induction pcs with
  | nil => rfl
  | cons e rest ih =>
    rw [List.filterMap_cons]
    by_cases he : e.1.1 = u
    · rw [if_pos he]
      by_cases hj : e.1.2 = j
      · have hkey : (u, j) = e.1 := by
          simp only [Prod.ext_iff]
          exact ⟨he.symm, hj.symm⟩
        rw [hkey, lookup_cons_self, ← hj, lookup_cons_self]
      · have hne1 : j ≠ e.1.2 := fun hh => hj hh.symm
        have hne2 : (u, j) ≠ e.1 := by
          intro hh
          exact hj (Prod.ext_iff.1 hh.symm).2
        rw [lookup_cons_ne _ _ _ _ hne1, lookup_cons_ne _ _ _ _ hne2]
        exact ih
    · rw [if_neg he]
      have hne2 : (u, j) ≠ e.1 := by
        intro hh
        exact he (Prod.ext_iff.1 hh.symm).1
      rw [lookup_cons_ne _ _ _ _ hne2]
      exact ih

theorem filtered_indices_nodup (pcs : List ((Nat × Nat) × Nat)) (u : Nat)
    (h : (pcs.map Prod.fst).Nodup) :
    ((pcs.filterMap
        (fun e => if e.1.1 = u then some (e.1.2, e.2) else none)).map
      Prod.fst).Nodup := by
  induction pcs with
  | nil => simp
  | cons e rest ih =>
    rw [List.map_cons] at h
    have hnotin : e.1 ∉ rest.map Prod.fst := (List.nodup_cons.1 h).1
    have hrest : (rest.map Prod.fst).Nodup := (List.nodup_cons.1 h).2
    rw [List.filterMap_cons]
    by_cases he : e.1.1 = u
    · rw [if_pos he, List.map_cons, List.nodup_cons]
      refine ⟨?_, ih hrest⟩
      intro hmem
      simp only [List.mem_map, List.mem_filterMap] at hmem
      obtain ⟨x, ⟨e2, he2mem, he2eq⟩, hx⟩ := hmem
      by_cases he2 : e2.1.1 = u
      · rw [if_pos he2] at he2eq
        obtain rfl : (e2.1.2, e2.2) = x := by simpa using he2eq
        apply hnotin
        have : e2.1 = e.1 := by
          simp only [Prod.ext_iff]
          exact ⟨he2.trans he.symm, by simpa using hx⟩
        exact this ▸ List.mem_map_of_mem Prod.fst he2mem
      · rw [if_neg he2] at he2eq
        exact absurd he2eq (by simp)
    · rw [if_neg he]
      exact ih hrest

theorem filtered_indices_bound (pcs : List ((Nat × Nat) × Nat)) (u : Nat)
    (h : ∀ e ∈ pcs, e.1.2 < 512) :
    ∀ x ∈ pcs.filterMap
        (fun e => if e.1.1 = u then some (e.1.2, e.2) else none), x.1 < 512 := by
  intro x hx
  obtain ⟨e, hemem, heq⟩ := List.mem_filterMap.1 hx
  by_cases he : e.1.1 = u
  · rw [if_pos he] at heq
    obtain rfl : (e.1.2, e.2) = x := by simpa using heq
    exact h e hemem
  · rw [if_neg he] at heq
    exact absurd heq (by simp)

theorem pad512_of_len (vs : Bytes) (h : vs.length = 512) : pad512 vs = vs := by
  unfold pad512
  rw [List.take_of_length_le (by omega)]
  simp [h]

theorem applyScales_getD (l : List (Nat × Nat)) :
    ∀ (vs : Bytes) (j : Nat), (l.map Prod.fst).Nodup →
      (∀ e ∈ l, e.1 < vs.length) → j < vs.length →
      (applyScales vs l).getD j 0
        = (match List.lookup j l with
           | some p => scaleChannel (vs.getD j 0) p
           | none => vs.getD j 0) := by
  induction l with
  | nil => intro vs j _ _ _; rfl
  | cons e rest ih =>
    obtain ⟨i, p⟩ := e
    intro vs j hnd hb hj
    rw [List.map_cons] at hnd
    have hnotin : i ∉ rest.map Prod.fst := (List.nodup_cons.1 hnd).1
    have hrest : (rest.map Prod.fst).Nodup := (List.nodup_cons.1 hnd).2
    have hel : i < vs.length := hb (i, p) (List.mem_cons_self _ rest)
    have happ : applyScales vs ((i, p) :: rest) =
        applyScales (vs.set i (scaleChannel (vs.getD i 0) p)) rest := rfl
    have hlenset : (vs.set i (scaleChannel (vs.getD i 0) p)).length = vs.length := by
      simp
    rw [happ, ih _ j hrest (fun x hx => hlenset ▸ hb x (List.mem_cons_of_mem _ hx))
      (hlenset ▸ hj)]
    by_cases hje : j = i
    · have hlr : List.lookup j rest = none := by
        rw [lookup_eq_none_iff, hje]
        exact hnotin
      have hcons : List.lookup j ((i, p) :: rest) = some p := by
        rw [hje]
        exact lookup_cons_self i p rest
      rw [hlr, hcons, hje]
      rw [List.getD_eq_getElem?_getD, List.getElem?_set_eq_of_lt _ (hje ▸ hj)]
      rfl
    · rw [lookup_cons_ne _ _ _ _ hje]
      have hset : (vs.set i (scaleChannel (vs.getD i 0) p)).getD j 0 =
          vs.getD j 0 := by
        rw [List.getD_eq_getElem?_getD,
          List.getElem?_set_ne (fun hh => hje hh.symm), ← List.getD_eq_getElem?_getD]
      rw [hset]

theorem replaceU_lookup_self (m : UMap) (u : Nat) (w : Bytes)
    (h : u ∈ m.map Prod.fst) :
    List.lookup u (replaceU m u w) = some w := by
  unfold replaceU
  induction m with
  | nil => simp at h
  | cons e t ih =>
    by_cases he : e.1 = u
    · simp only [List.map_cons, if_pos he]
      exact lookup_cons_self u w _
    · simp only [List.map_cons, if_neg he]
      rw [lookup_cons_ne _ _ _ _ (fun hh => he hh.symm)]
      apply ih
      rw [List.map_cons] at h
      rcases List.mem_cons.1 h with hk | hk
      · exact absurd hk.symm he
      · exact hk

theorem replaceU_lookup_ne (m : UMap) (u u2 : Nat) (w : Bytes) (h : u2 ≠ u) :
    List.lookup u2 (replaceU m u w) = List.lookup u2 m := by
  unfold replaceU
  induction m with
  | nil => rfl
  | cons e t ih =>
    by_cases he : e.1 = u
    · simp only [List.map_cons, if_pos he]
      rw [lookup_cons_ne _ _ _ _ h]
      have hne : u2 ≠ e.1 := by rw [he]; exact h
      have hbeq : (u2 == e.1) = false := beq_false_of_ne hne
      rw [ih, List.lookup, hbeq]
    · simp only [List.map_cons, if_neg he]
      rw [List.lookup, List.lookup]
      cases u2 == e.1 <;> simp [ih]

theorem applyBuckets_not_mem (buckets : List (Nat × List (Nat × Nat))) :
    ∀ (init : UMap) (u : Nat), List.lookup u buckets = none →
      List.lookup u (buckets.foldl
          (fun out q =>
            match List.lookup q.1 out with
            | none => out
            | some dmx => replaceU out q.1 (applyScales (pad512 dmx) q.2)) init)
        = List.lookup u init := by
  induction buckets with
  | nil => intro init u _; rfl
  | cons q rest ih =>
    intro init u h
    have hne : u ≠ q.1 := by
      intro hh
      rw [hh, lookup_cons_self] at h
      exact absurd h (by simp)
    rw [lookup_cons_ne _ _ _ _ hne] at h
    rw [List.foldl_cons]
    have hinit : ∀ init2 : UMap,
        List.lookup u (match List.lookup q.1 init2 with
          | none => init2
          | some dmx => replaceU init2 q.1 (applyScales (pad512 dmx) q.2))
          = List.lookup u init2 := by
      intro init2
      cases hl : List.lookup q.1 init2 with
      | none => rfl
      | some dmx => exact replaceU_lookup_ne init2 q.1 u _ hne
    rw [ih _ u h, hinit init]

theorem applyBuckets_mem (buckets : List (Nat × List (Nat × Nat))) :
    ∀ (init : UMap) (u : Nat) (l : List (Nat × Nat)),
      (buckets.map Prod.fst).Nodup → List.lookup u buckets = some l →
      List.lookup u (buckets.foldl
          (fun out q =>
            match List.lookup q.1 out with
            | none => out
            | some dmx => replaceU out q.1 (applyScales (pad512 dmx) q.2)) init)
        = (List.lookup u init).map (fun vs => applyScales (pad512 vs) l) := by
  induction buckets with
  | nil => intro init u l _ h; simp [List.lookup] at h
  | cons q rest ih =>
    obtain ⟨qu, qb⟩ := q
    intro init u l hnd h
    rw [List.map_cons] at hnd
    have hnotin : qu ∉ rest.map Prod.fst := (List.nodup_cons.1 hnd).1
    have hrest : (rest.map Prod.fst).Nodup := (List.nodup_cons.1 hnd).2
    rw [List.foldl_cons]
    by_cases hu : u = qu
    · subst hu
      rw [lookup_cons_self] at h
      obtain rfl : qb = l := by simpa using h
      have hrestnone : List.lookup u rest = none := by
        rw [lookup_eq_none_iff]
        exact hnotin
      rw [applyBuckets_not_mem rest _ u hrestnone]
      cases hl : List.lookup u init with
      | none => simp [hl]
      | some dmx =>
        simp only [hl]
        have hmem : u ∈ init.map Prod.fst := by
          rw [← lookup_isSome_iff]
          simp [hl]
        show List.lookup u (replaceU init u (applyScales (pad512 dmx) qb))
          = some (applyScales (pad512 dmx) qb)
        exact replaceU_lookup_self init u _ hmem
    · rw [lookup_cons_ne _ _ _ _ hu] at h
      have hstep : List.lookup u (match List.lookup qu init with
          | none => init
          | some dmx => replaceU init qu (applyScales (pad512 dmx) qb))
          = List.lookup u init := by
        cases hl : List.lookup qu init with
        | none => rfl
        | some dmx => exact replaceU_lookup_ne init qu u _ hu
      rw [ih _ u l hrest h, hstep]

theorem applyGroupDimmers_lookup (layout : List Group) (payload : UMap)
    (hv : ∀ g ∈ layout, g.value_percent ≤ 100)
    (hlen : ∀ q ∈ payload, (q.2 : Bytes).length = 512)
    (hval : ∀ q ∈ payload, ∀ v ∈ q.2, v ≤ 255)
    (u : Nat) (vs : Bytes) (hvs : List.lookup u payload = some vs) :
    ∃ vs2, List.lookup u (applyGroupDimmers (some layout) payload) = some vs2 ∧
      ∀ i, i < 512 →
        vs2.getD i 0 = scaleChannel (vs.getD i 0) (specMinPercent layout u i) := by
  have hvslen : vs.length = 512 := hlen _ (lookup_mem hvs)
  have hv_le : ∀ i, i < 512 → vs.getD i 0 ≤ 255 := by
    intro i hi
    have hmem : vs.getD i 0 ∈ vs := by
      rw [List.getD_eq_getElem?_getD, List.getElem?_eq_getElem (by omega)]
      exact List.getElem_mem _
    exact hval _ (lookup_mem hvs) _ hmem
  have hspec : ∀ i, i < 512 →
      (List.lookup (u, i) (perChannelPercent layout)).getD 100 =
        specMinPercent layout u i := by
    intro i hi
    rw [perChannel_lookup]
    exact codeMin_eq_specMin layout u i hi hv
  unfold applyGroupDimmers
  dsimp only
  by_cases hempty : (perChannelPercent layout).isEmpty = true
  · rw [if_pos hempty]
    refine ⟨vs, hvs, fun i hi => ?_⟩
    have hnil : perChannelPercent layout = [] := List.isEmpty_iff.1 hempty
    have hnone : List.lookup (u, i) (perChannelPercent layout) = none := by
      rw [hnil]; rfl
    have hmin : specMinPercent layout u i = 100 := by
      rw [← hspec i hi, hnone]; rfl
    rw [hmin, scaleChannel_100 _ (hv_le i hi)]
  · rw [if_neg hempty]
    have hbnone := byUniverse_fold_none (perChannelPercent layout) [] u rfl
    cases hb : List.lookup u (byUniverse (perChannelPercent layout)) with
    | none =>
      have hfold := applyBuckets_not_mem (byUniverse (perChannelPercent layout))
        payload u hb
      refine ⟨vs, by rw [hfold]; exact hvs, fun i hi => ?_⟩
      have hfiltered : (perChannelPercent layout).filterMap
          (fun e => if e.1.1 = u then some (e.1.2, e.2) else none) = [] := by
        unfold byUniverse at hb
        rw [hbnone] at hb
        by_cases hemp : ((perChannelPercent layout).filterMap
            (fun e => if e.1.1 = u then some (e.1.2, e.2) else none)).isEmpty = true
        · exact List.isEmpty_iff.1 hemp
        · rw [if_neg hemp] at hb
          exact absurd hb (by simp)
      have hnone : List.lookup (u, i) (perChannelPercent layout) = none := by
        rw [← filtered_lookup, hfiltered]; rfl
      have hmin : specMinPercent layout u i = 100 := by
        rw [← hspec i hi, hnone]; rfl
      rw [hmin, scaleChannel_100 _ (hv_le i hi)]
    | some l =>
      have hbnd := byUniverse_keys_nodup (perChannelPercent layout) [] (by simp)
      have hfold := applyBuckets_mem (byUniverse (perChannelPercent layout))
        payload u l hbnd hb
      rw [hfold, hvs]
      refine ⟨applyScales (pad512 vs) l, rfl, fun i hi => ?_⟩
      have hlfil : l = (perChannelPercent layout).filterMap
          (fun e => if e.1.1 = u then some (e.1.2, e.2) else none) := by
        unfold byUniverse at hb
        rw [hbnone] at hb
        by_cases hemp : ((perChannelPercent layout).filterMap
            (fun e => if e.1.1 = u then some (e.1.2, e.2) else none)).isEmpty = true
        · rw [if_pos hemp] at hb
          exact absurd hb (by simp)
        · rw [if_neg hemp] at hb
          exact (Option.some_inj.1 hb).symm
      have hnodupidx : (l.map Prod.fst).Nodup :=
        hlfil ▸ filtered_indices_nodup _ u (perChannel_keys_nodup layout)
      have hboundl : ∀ e ∈ l, e.1 < (pad512 vs).length := by
        rw [pad512_length]
        exact hlfil ▸ filtered_indices_bound _ u (perChannel_keybound layout)
      rw [applyScales_getD l (pad512 vs) i hnodupidx hboundl
        (by rw [pad512_length]; omega)]
      rw [pad512_of_len vs hvslen]
      have hlook : List.lookup i l = List.lookup (u, i) (perChannelPercent layout) := by
        rw [hlfil]
        exact filtered_lookup _ u i
      cases hpl : List.lookup (u, i) (perChannelPercent layout) with
      | some p =>
        have hmin : specMinPercent layout u i = p := by
          rw [← hspec i hi, hpl]; rfl
        rw [hlook, hpl, hmin]
      | none =>
        have hmin : specMinPercent layout u i = 100 := by
          rw [← hspec i hi, hpl]; rfl
        rw [hlook, hpl, hmin, scaleChannel_100 _ (hv_le i hi)]

set_option maxRecDepth 8192 in
/-- C5: a muted group contributes effective percent 0 and an unmuted group
its value_percent; a channel covered by several groups is scaled once by
the minimum of their effective percents, as round(old * percent / 100)
clamped to a byte — stated against the spec-side specMinPercent — and the
spec example G1 = {(0,1),(0,2)} at 60, G2 = {(0,2),(0,3)} at 20 on base
[200]*512 gives channel 1 → 120, channels 2,3 → 40 and the rest 200. -/
theorem group_dimmer_min_rule :
    (∀ (layout : List Group) (payload : UMap),
      (∀ g ∈ layout, g.value_percent ≤ 100) →
      (∀ q ∈ payload, (q.2 : Bytes).length = 512) →
      (∀ q ∈ payload, ∀ v ∈ q.2, v ≤ 255) →
      ∀ u vs, List.lookup u payload = some vs →
        ∃ vs2, List.lookup u (applyGroupDimmers (some layout) payload) = some vs2 ∧
          ∀ i, i < 512 →
            vs2.getD i 0 = scaleChannel (vs.getD i 0) (specMinPercent layout u i)) ∧
    applyGroupDimmers (some [exampleG1, exampleG2]) exampleBase
      = [(0, 120 :: 40 :: 40 :: List.replicate 509 200)] := by
  refine ⟨fun layout payload hv hlen hval u vs hvs =>
    applyGroupDimmers_lookup layout payload hv hlen hval u vs hvs, ?_⟩
  decide

set_option maxRecDepth 8192 in
/-- Witness for C5 at the spec example layout and base payload. -/
theorem group_dimmer_min_rule_witness :
    (∀ g ∈ [exampleG1, exampleG2], g.value_percent ≤ 100) ∧
    (∃ vs2, List.lookup 0 (applyGroupDimmers (some [exampleG1, exampleG2])
        exampleBase) = some vs2 ∧
      ∀ i, i < 512 →
        vs2.getD i 0 = scaleChannel ((List.replicate 512 200).getD i 0)
          (specMinPercent [exampleG1, exampleG2] 0 i)) :=
  ⟨by decide,
    group_dimmer_min_rule.1 [exampleG1, exampleG2] exampleBase
      (by decide) (by decide) (by decide) 0 (List.replicate 512 200) (by decide)⟩

/-! ## C2: delta-v1 round trip -/

theorem applyPairs_append (vs : Bytes) (a b : List (Nat × Nat)) :
    applyPairs vs (a ++ b) = applyPairs (applyPairs vs a) b :=
  List.foldl_append ..

theorem set_concat {α : Type} (l1 : List α) (a b : α) (l2 : List α) :
    (l1 ++ a :: l2).set l1.length b = l1 ++ b :: l2 := by
  induction l1 with
  | nil => rfl
  | cons x xs ih => simp [List.set, ih]

theorem applyPairs_diff_concat (prev : List Nat) :
    ∀ (curr T : List Nat), prev.length = curr.length →
      applyPairs (T ++ prev) (diffPairsFrom T.length prev curr) = T ++ curr := by
  induction prev with
  | nil =>
    intro curr T hlen
    obtain rfl : curr = [] := by
      cases curr
      · rfl
      · simp at hlen
    rfl
  | cons p prev' ih =>
    intro curr T hlen
    cases curr with
    | nil => simp at hlen
    | cons v curr' =>
      have hlen' : prev'.length = curr'.length := by simpa using hlen
      rw [diffPairsFrom, applyPairs_append]
      by_cases hv : v = p
      · rw [if_neg (by simpa using hv)]
        have h1 : applyPairs (T ++ p :: prev') [] = (T ++ [p]) ++ prev' := by
          simp [applyPairs]
        have h2 : T.length + 1 = (T ++ [p]).length := by simp
        rw [h1, h2, ih curr' (T ++ [p]) hlen']
        simp [hv]
      · rw [if_pos (by simpa using hv)]
        have h1 : applyPairs (T ++ p :: prev') [(T.length, v)]
            = (T ++ [v]) ++ prev' := by
          show (T ++ p :: prev').set T.length v = (T ++ [v]) ++ prev'
          rw [set_concat]
          simp
        have h2 : T.length + 1 = (T ++ [v]).length := by simp
        rw [h1, h2, ih curr' (T ++ [v]) hlen']
        simp

theorem diffPairs_apply (prev curr : List Nat) (hlen : prev.length = curr.length) :
    applyPairs prev (diffPairs prev curr) = curr := by
  have h := applyPairs_diff_concat prev curr [] hlen
  simpa [diffPairs] using h

theorem diffPairs_nil_eq (prev curr : List Nat)
    (hlen : prev.length = curr.length) (h : diffPairs prev curr = []) :
    prev = curr := by
  have := diffPairs_apply prev curr hlen
  rw [h] at this
  simpa [applyPairs] using this

theorem diffPairsFrom_mem (prev : List Nat) :
    ∀ (curr : List Nat) (k : Nat), ∀ pr ∈ diffPairsFrom k prev curr,
      k ≤ pr.1 ∧ pr.1 < k + curr.length ∧ pr.2 ∈ curr := by
  induction prev with
  | nil =>
    intro curr k pr hpr
    cases curr with
    | nil => simp [diffPairsFrom] at hpr
    | cons v curr' => simp [diffPairsFrom] at hpr
  | cons p prev' ih =>
    intro curr k pr hpr
    cases curr with
    | nil => simp [diffPairsFrom] at hpr
    | cons v curr' =>
      rw [diffPairsFrom] at hpr
      rcases List.mem_append.1 hpr with hpr | hpr
      · by_cases hv : v = p
        · rw [if_neg (by simpa using hv)] at hpr
          simp at hpr
        · rw [if_pos (by simpa using hv)] at hpr
          obtain rfl : pr = (k, v) := by simpa using hpr
          refine ⟨Nat.le_refl k, by simp, List.mem_cons_self v curr'⟩
      · obtain ⟨h1, h2, h3⟩ := ih curr' (k + 1) pr hpr
        exact ⟨by omega, by simp; omega, List.mem_cons_of_mem _ h3⟩

theorem replaceU_keys (m : UMap) (u : Nat) (w : Bytes) :
    (replaceU m u w).map Prod.fst = m.map Prod.fst := by
  unfold replaceU
  rw [List.map_map]
  refine List.map_congr_left fun q _ => ?_
  by_cases h : q.1 = u <;> simp [h]

theorem insertSorted_perm (x : Nat) (l : List Nat) :
    (insertSorted x l).Perm (x :: l) := by
  induction l with
  | nil => exact List.Perm.refl _
  | cons y ys ih =>
    rw [insertSorted]
    split
    · exact List.Perm.refl _
    · exact (List.Perm.cons y ih).trans (List.Perm.swap x y ys)

theorem sortKeys_perm (l : List Nat) : (sortKeys l).Perm l := by
  induction l with
  | nil => exact List.Perm.refl _
  | cons x xs ih =>
    exact (insertSorted_perm x (sortKeys xs)).trans (List.Perm.cons x ih)

theorem nodup_keys_lookup {α β : Type} [BEq α] [LawfulBEq α] [DecidableEq α]
    {m : List (α × β)} (hnd : (m.map Prod.fst).Nodup) {k : α} {v : β}
    (h : (k, v) ∈ m) : List.lookup k m = some v := by
  induction m with
  | nil => simp at h
  | cons e t ih =>
    rw [List.map_cons] at hnd
    have hnotin : e.1 ∉ t.map Prod.fst := (List.nodup_cons.1 hnd).1
    have hrest : (t.map Prod.fst).Nodup := (List.nodup_cons.1 hnd).2
    rcases List.mem_cons.1 h with heq | hmem
    · obtain ⟨e1, e2⟩ := e
      have hk : e1 = k := (Prod.mk.injEq .. ▸ heq.symm).1
      have hv : e2 = v := (Prod.mk.injEq .. ▸ heq.symm).2
      rw [← hk, ← hv]
      exact lookup_cons_self e1 e2 t
    · have hne : k ≠ e.1 := by
        intro hh
        apply hnotin
        rw [← hh]
        exact List.mem_map_of_mem Prod.fst hmem
      rw [lookup_cons_ne _ _ _ _ hne]
      exact ih hrest hmem

theorem dictEqB_of_lookup_eq (m1 m2 : UMap)
    (h1 : (m1.map Prod.fst).Nodup) (h2 : (m2.map Prod.fst).Nodup)
    (h : ∀ u, List.lookup u m1 = List.lookup u m2) : dictEqB m1 m2 = true := by
  unfold dictEqB
  rw [Bool.and_eq_true]
  constructor
  · rw [List.all_eq_true]
    intro q hq
    have : List.lookup q.1 m2 = some q.2 := by
      rw [← h q.1]
      exact nodup_keys_lookup h1 (by simpa using hq)
    simp [this]
  · rw [List.all_eq_true]
    intro q hq
    have : List.lookup q.1 m1 = some q.2 := by
      rw [h q.1]
      exact nodup_keys_lookup h2 (by simpa using hq)
    simp [this]

theorem sameKeysB_isSome (m1 m2 : UMap) (h : sameKeysB m1 m2 = true) (u : Nat) :
    (List.lookup u m1).isSome = true ↔ (List.lookup u m2).isSome = true := by
  unfold sameKeysB at h
  rw [Bool.and_eq_true, List.all_eq_true, List.all_eq_true] at h
  constructor
  · intro hs
    cases hl : List.lookup u m1 with
    | none => rw [hl] at hs; simp at hs
    | some v => exact h.1 (u, v) (lookup_mem hl)
  · intro hs
    cases hl : List.lookup u m2 with
    | none => rw [hl] at hs; simp at hs
    | some v => exact h.2 (u, v) (lookup_mem hl)

theorem validUniverses_entry (m : UMap) (h : validUniverses m = true)
    {u : Nat} {vs : Bytes} (hmem : (u, vs) ∈ m) :
    vs.length = 512 ∧ ∀ v ∈ vs, v ≤ 255 := by
  unfold validUniverses at h
  rw [List.all_eq_true] at h
  have := h (u, vs) hmem
  rw [Bool.and_eq_true, decide_eq_true_eq, List.all_eq_true] at this
  exact ⟨this.1, fun v hv => by simpa using this.2 v hv⟩

theorem changes_roundtrip (ids : List Nat) :
    ∀ (prev curr c : UMap), ids.Nodup →
      (∀ u ∈ ids, ∃ cv, List.lookup u curr = some cv ∧ cv.length = 512 ∧
        ∀ v ∈ cv, v ≤ 255) →
      (∀ u ∈ ids, ∃ pv, List.lookup u prev = some pv ∧ pv.length = 512 ∧
        List.lookup u c = some pv) →
      ∃ cs, changesFor ids prev curr = some cs ∧
        ∃ c2, applyChanges c cs = some c2 ∧
          (∀ u ∈ ids, List.lookup u c2 = List.lookup u curr) ∧
          (∀ u, u ∉ ids → List.lookup u c2 = List.lookup u c) ∧
          c2.map Prod.fst = c.map Prod.fst := by
  induction ids with
  | nil =>
    intro prev curr c _ _ _
    exact ⟨[], rfl, c, rfl, by simp, fun u _ => rfl, rfl⟩
  | cons u rest ih =>
    intro prev curr c hnd hcur hprev
    have hunotin : u ∉ rest := (List.nodup_cons.1 hnd).1
    have hrestnd : rest.Nodup := (List.nodup_cons.1 hnd).2
    obtain ⟨cv, hcv, hcvlen, hcvval⟩ := hcur u (List.mem_cons_self u rest)
    obtain ⟨pv, hpv, hpvlen, hcpv⟩ := hprev u (List.mem_cons_self u rest)
    have hlens : pv.length = cv.length := by rw [hpvlen, hcvlen]
    have hrestcur : ∀ u2 ∈ rest, ∃ cv2, List.lookup u2 curr = some cv2 ∧
        cv2.length = 512 ∧ ∀ v ∈ cv2, v ≤ 255 :=
      fun u2 hu2 => hcur u2 (List.mem_cons_of_mem _ hu2)
    by_cases hd : (diffPairs pv cv).isEmpty = true
    · have hpc : pv = cv :=
        diffPairs_nil_eq pv cv hlens (by simpa using hd)
      have hrestprev : ∀ u2 ∈ rest, ∃ pv2, List.lookup u2 prev = some pv2 ∧
          pv2.length = 512 ∧ List.lookup u2 c = some pv2 :=
        fun u2 hu2 => hprev u2 (List.mem_cons_of_mem _ hu2)
      obtain ⟨cs, hcs, c2, happ, hin, hout, hkeys⟩ :=
        ih prev curr c hrestnd hrestcur hrestprev
      refine ⟨cs, ?_, c2, happ, ?_, ?_, hkeys⟩
      · simp [changesFor, hpv, hcv, hcs, hd]
      · intro u2 hu2
        rcases List.mem_cons.1 hu2 with rfl | hu2
        · rw [hout u2 hunotin, hcpv, hpc, hcv]
        · exact hin u2 hu2
      · intro u2 hu2
        exact hout u2 fun hh => hu2 (List.mem_cons_of_mem _ hh)
    · have hc1pv : List.lookup u (replaceU c u cv) = some cv := by
        refine replaceU_lookup_self c u cv ?_
        rw [← lookup_isSome_iff]
        simp [hcpv]
      have hrestprev : ∀ u2 ∈ rest, ∃ pv2, List.lookup u2 prev = some pv2 ∧
          pv2.length = 512 ∧ List.lookup u2 (replaceU c u cv) = some pv2 := by
        intro u2 hu2
        obtain ⟨pv2, h1, h2, h3⟩ := hprev u2 (List.mem_cons_of_mem _ hu2)
        have hne : u2 ≠ u := fun hh => hunotin (hh ▸ hu2)
        exact ⟨pv2, h1, h2, by rw [replaceU_lookup_ne c u u2 cv hne]; exact h3⟩
      obtain ⟨cs, hcs, c2, happ, hin, hout, hkeys⟩ :=
        ih prev curr (replaceU c u cv) hrestnd hrestcur hrestprev
      refine ⟨(u, diffPairs pv cv) :: cs, ?_, c2, ?_, ?_, ?_, ?_⟩
      · simp [changesFor, hpv, hcv, hcs, hd]
      · have hguard : ((diffPairs pv cv).all fun pr =>
            decide (pr.1 < 512) && decide (pr.2 ≤ 255)) = true := by
          rw [List.all_eq_true]
          intro pr hpr
          obtain ⟨_, h2, h3⟩ := diffPairsFrom_mem pv cv 0 pr hpr
          rw [Bool.and_eq_true, decide_eq_true_eq, decide_eq_true_eq]
          exact ⟨by omega, hcvval _ h3⟩
        have happd : applyPairs pv (diffPairs pv cv) = cv := diffPairs_apply pv cv hlens
        show applyChanges c ((u, diffPairs pv cv) :: cs) = some c2
        rw [applyChanges, hcpv]
        simp only [hguard, if_pos]
        rw [happd]
        exact happ
      · intro u2 hu2
        rcases List.mem_cons.1 hu2 with rfl | hu2
        · rw [hout u2 hunotin, hc1pv, hcv]
        · exact hin u2 hu2
      · intro u2 hu2
        have hne : u2 ≠ u := fun hh => hu2 (hh ▸ List.mem_cons_self u rest)
        rw [hout u2 fun hh => hu2 (List.mem_cons_of_mem _ hh)]
        exact replaceU_lookup_ne c u u2 cv hne
      · rw [hkeys, replaceU_keys]

theorem frames_roundtrip (ids : List Nat) (hnd : ids.Nodup) :
    ∀ (fs : List Frame) (prev c : UMap),
      (∀ f ∈ fs, validUniverses f.universes = true) →
      (∀ f ∈ fs, (f.universes.map Prod.fst).Nodup) →
      (∀ f ∈ fs, ∀ u : Nat, (List.lookup u f.universes).isSome = true ↔ u ∈ ids) →
      (∀ u ∈ ids, ∃ pv, List.lookup u prev = some pv ∧ pv.length = 512 ∧
        List.lookup u c = some pv) →
      (∀ u, u ∉ ids → List.lookup u c = none) →
      (c.map Prod.fst).Nodup →
      ∃ pfs, compressFrames ids prev fs = some pfs ∧
        ∃ out, decompressFrames c pfs = some out ∧ framesEqB out fs = true := by
  intro fs
  induction fs with
  | nil =>
    intro prev c _ _ _ _ _ _
    exact ⟨[], rfl, [], rfl, by decide⟩
  | cons f fs2 ih =>
    intro prev c hvalid hnodupf hkeys hprev hcoff hcnd
    have hfmem : f ∈ f :: fs2 := List.mem_cons_self f fs2
    have hfval := hvalid f hfmem
    have hcur : ∀ u ∈ ids, ∃ cv, List.lookup u f.universes = some cv ∧
        cv.length = 512 ∧ ∀ v ∈ cv, v ≤ 255 := by
      intro u hu
      have hs : (List.lookup u f.universes).isSome = true := (hkeys f hfmem u).2 hu
      cases hl : List.lookup u f.universes with
      | none => rw [hl] at hs; simp at hs
      | some cv =>
        have hv := validUniverses_entry f.universes hfval (lookup_mem hl)
        exact ⟨cv, rfl, hv.1, hv.2⟩
    obtain ⟨cs, hcs, c2, happ, hin, hout, hkeyseq⟩ :=
      changes_roundtrip ids prev f.universes c hnd hcur hprev
    have hprev2 : ∀ u ∈ ids, ∃ pv, List.lookup u f.universes = some pv ∧
        pv.length = 512 ∧ List.lookup u c2 = some pv := by
      intro u hu
      obtain ⟨cv, h1, h2, _⟩ := hcur u hu
      exact ⟨cv, h1, h2, by rw [hin u hu]; exact h1⟩
    have hcoff2 : ∀ u, u ∉ ids → List.lookup u c2 = none := fun u hu => by
      rw [hout u hu]; exact hcoff u hu
    have hc2nd : (c2.map Prod.fst).Nodup := hkeyseq ▸ hcnd
    obtain ⟨pfs2, hcps2, out2, hdec2, heq2⟩ :=
      ih f.universes c2
        (fun f2 h2 => hvalid f2 (List.mem_cons_of_mem _ h2))
        (fun f2 h2 => hnodupf f2 (List.mem_cons_of_mem _ h2))
        (fun f2 h2 => hkeys f2 (List.mem_cons_of_mem _ h2))
        hprev2 hcoff2 hc2nd
    refine ⟨⟨f.timestamp_ms, cs⟩ :: pfs2, ?_, ⟨f.timestamp_ms, c2⟩ :: out2, ?_, ?_⟩
    · simp [compressFrames, hcs, hcps2]
    · simp [decompressFrames, happ, hdec2]
    · have hdict : dictEqB c2 f.universes = true := by
        refine dictEqB_of_lookup_eq c2 f.universes hc2nd (hnodupf f hfmem) fun u => ?_
        by_cases hu : u ∈ ids
        · exact hin u hu
        · rw [hout u hu, hcoff u hu]
          cases hl : List.lookup u f.universes with
          | none => rfl
          | some v =>
            exact absurd ((hkeys f hfmem u).1 (by simp [hl])) hu
      unfold framesEqB at heq2 ⊢
      rw [Bool.and_eq_true] at heq2
      obtain ⟨hlen2, hall2⟩ := heq2
      rw [decide_eq_true_eq] at hlen2
      rw [Bool.and_eq_true]
      refine ⟨by simp [hlen2], ?_⟩
      rw [List.zip_cons_cons, List.all_cons, Bool.and_eq_true]
      refine ⟨?_, hall2⟩
      rw [Bool.and_eq_true]
      exact ⟨by simp, hdict⟩

/-- C2: for every valid animated frame sequence (non-empty, every frame a
dict of exactly-512 arrays with values in 0..=255, all frames sharing one
universe key set), decompressing the delta-v1 compact form produced by
compression succeeds and yields a frame list that is Python-equal (same
timestamps, dict-equal universe maps) to the original sequence. -/
theorem animated_frames_roundtrip (frames : List Frame)
    (h : validFrames frames = true) :
    ∃ out, (compressAnimatedFrames frames).bind decompressAnimatedFrames =
        some out ∧
      framesEqB out frames = true := by
  cases frames with
  | nil => simp [validFrames] at h
  | cons f0 rest =>
    have hall : ∀ f ∈ f0 :: rest,
        (validUniverses f.universes && decide (f.universes.map (·.1)).Nodup
          && sameKeysB f.universes f0.universes) = true :=
      List.all_eq_true.1 h
    have hvalid : ∀ f ∈ f0 :: rest, validUniverses f.universes = true := by
      intro f hf
      have := hall f hf
      rw [Bool.and_eq_true, Bool.and_eq_true] at this
      exact this.1.1
    have hnodupf : ∀ f ∈ f0 :: rest, (f.universes.map Prod.fst).Nodup := by
      intro f hf
      have := hall f hf
      rw [Bool.and_eq_true, Bool.and_eq_true, decide_eq_true_eq] at this
      exact this.1.2
    have hsame : ∀ f ∈ f0 :: rest, sameKeysB f.universes f0.universes = true := by
      intro f hf
      have := hall f hf
      rw [Bool.and_eq_true] at this
      exact this.2
    have hperm : (sortKeys (f0.universes.map (·.1))).Perm
        (f0.universes.map (·.1)) := sortKeys_perm _
    have hndids : (sortKeys (f0.universes.map (·.1))).Nodup := by
      refine hperm.nodup_iff.2 ?_
      exact hnodupf f0 (List.mem_cons_self f0 rest)
    have hmemids : ∀ u : Nat,
        u ∈ sortKeys (f0.universes.map (·.1)) ↔ u ∈ f0.universes.map Prod.fst :=
      fun u => hperm.mem_iff
    have hkeys : ∀ f ∈ f0 :: rest, ∀ u : Nat,
        (List.lookup u f.universes).isSome = true ↔
          u ∈ sortKeys (f0.universes.map (·.1)) := by
      intro f hf u
      rw [sameKeysB_isSome f.universes f0.universes (hsame f hf) u,
        lookup_isSome_iff]
      exact (hmemids u).symm
    have hprev : ∀ u ∈ sortKeys (f0.universes.map (·.1)),
        ∃ pv, List.lookup u f0.universes = some pv ∧ pv.length = 512 ∧
          List.lookup u f0.universes = some pv := by
      intro u hu
      have hs : (List.lookup u f0.universes).isSome = true :=
        (hkeys f0 (List.mem_cons_self f0 rest) u).2 hu
      cases hl : List.lookup u f0.universes with
      | none => rw [hl] at hs; simp at hs
      | some pv =>
        have hv := validUniverses_entry f0.universes
          (hvalid f0 (List.mem_cons_self f0 rest)) (lookup_mem hl)
        exact ⟨pv, rfl, hv.1, rfl⟩
    have hcoff : ∀ u, u ∉ sortKeys (f0.universes.map (·.1)) →
        List.lookup u f0.universes = none := by
      intro u hu
      cases hl : List.lookup u f0.universes with
      | none => rfl
      | some v =>
        exact absurd ((hkeys f0 (List.mem_cons_self f0 rest) u).1 (by simp [hl])) hu
    obtain ⟨pfs, hc, out, hdec, heq⟩ :=
      frames_roundtrip (sortKeys (f0.universes.map (·.1))) hndids (f0 :: rest)
        f0.universes f0.universes hvalid hnodupf hkeys hprev hcoff
        (hnodupf f0 (List.mem_cons_self f0 rest))
    refine ⟨out, ?_, heq⟩
    have hcomp : compressAnimatedFrames (f0 :: rest) =
        some ⟨"delta-v1", f0.universes, pfs⟩ := by
      simp [compressAnimatedFrames, hc]
    rw [hcomp]
    show decompressAnimatedFrames ⟨"delta-v1", f0.universes, pfs⟩ = some out
    unfold decompressAnimatedFrames
    rw [if_neg (by simp), if_pos (hvalid f0 (List.mem_cons_self f0 rest))]
    exact hdec

set_option maxRecDepth 8192 in
/-- Witness for C2 at a concrete two-frame sequence on universe 0. -/
theorem animated_frames_roundtrip_witness :
    validFrames [⟨0, exampleBase⟩,
      ⟨500, [(0, (List.replicate 512 200).set 3 9)]⟩] = true ∧
    ∃ out, (compressAnimatedFrames [⟨0, exampleBase⟩,
        ⟨500, [(0, (List.replicate 512 200).set 3 9)]⟩]).bind
          decompressAnimatedFrames = some out ∧
      framesEqB out [⟨0, exampleBase⟩,
        ⟨500, [(0, (List.replicate 512 200).set 3 9)]⟩] = true :=
  ⟨by decide, animated_frames_roundtrip _ (by decide)⟩

end VenueLight
